import Mathlib

/-!
Verification of the payment allocation and reconciliation engine of the
Ledger-2.0 repository: a shallow embedding of the Express/Prisma payment
routes (`POST /api/payments`, `DELETE /api/payments/:id`,
`POST /api/party-payments`, `DELETE /api/party-payments/:id`,
`GET /api/parties/:id/details`) as pure Lean functions over an explicit
store, together with proofs of the spec's testable properties.
Monetary amounts are modelled as exact rationals.
-/

namespace Ledger

inductive Role
  | admin
  | staff
deriving DecidableEq, Repr

structure User where
  id : Nat
  role : Role
deriving DecidableEq, Repr

inductive Err
  | invalidArgument
  | notFound
  | forbidden
  | alreadyDeleted
  | storeFailure
deriving DecidableEq, Repr

inductive TxType
  | buy
  | sell
deriving DecidableEq, Repr

structure Party where
  id : Nat
  creditBalance : ℚ
deriving DecidableEq, Repr

structure Txn where
  id : Nat
  partyId : Nat
  type : TxType
  date : Int
deriving DecidableEq, Repr

structure SellItem where
  id : Nat
  transactionId : Nat
  totalAmount : ℚ
  paymentReceived : ℚ
  balanceLeft : ℚ
deriving DecidableEq, Repr

structure Payment where
  id : Nat
  sellItemId : Nat
  amount : ℚ
  paymentDate : Int
  createdBy : Nat
deriving DecidableEq, Repr

structure PartyPayment where
  id : Nat
  partyId : Nat
  amount : ℚ
  paymentDate : Int
  createdBy : Nat
  isDeleted : Bool
  deletedBy : Option Nat
deriving DecidableEq, Repr

structure PaymentAllocation where
  partyPaymentId : Nat
  sellItemId : Nat
  amount : ℚ
deriving DecidableEq, Repr

deriving instance DecidableEq for Except

structure Store where
  parties : List Party
  transactions : List Txn
  sellItems : List SellItem
  payments : List Payment
  partyPayments : List PartyPayment
  allocations : List PaymentAllocation
  nextId : Nat
deriving DecidableEq, Repr

/-- Sum of the amounts of all Payment rows attached to a sell item
(`prisma.payment.aggregate({ where: { sellItemId }, _sum: { amount } })`). -/
def paymentsSum (ps : List Payment) (sid : Nat) : ℚ :=
  ((ps.filter (fun p => p.sellItemId == sid)).map (fun p => p.amount)).sum

/-- Per-row effect of
`sellItem.update({ where: { id: sid }, data: { paymentReceived := pr, balanceLeft := bl } })`. -/
def setFun (sid : Nat) (pr bl : ℚ) (si : SellItem) : SellItem :=
  if si.id == sid then { si with paymentReceived := pr, balanceLeft := bl } else si

def setItemBalances (items : List SellItem) (sid : Nat) (pr bl : ℚ) : List SellItem :=
  items.map (setFun sid pr bl)

/-- `POST /api/payments`: validates (JS falsy test on sellItemId, amount,
paymentDate), verifies the sell item exists, creates the Payment row,
recomputes `paymentReceived` as the sum of all payments for that item and
sets `balanceLeft = totalAmount - totalReceived`.  Returns the updated
store and the `updated_balance` of the response. -/
def recordPayment (s : Store) (u : User) (sellItemId? : Option Nat)
    (amount? : Option ℚ) (date? : Option Int) : Store × Except Err ℚ :=
  match sellItemId?, amount?, date? with
  | some sid, some amt, some d =>
    if amt == 0 then (s, Except.error Err.invalidArgument)
    else
      match s.sellItems.find? (fun si => si.id == sid) with
      | none => (s, Except.error Err.notFound)
      | some si =>
        let pay : Payment :=
          { id := s.nextId, sellItemId := sid, amount := amt, paymentDate := d,
            createdBy := u.id }
        let s1 : Store := { s with payments := s.payments ++ [pay], nextId := s.nextId + 1 }
        let totalReceived := paymentsSum s1.payments sid
        let newItems := setItemBalances s1.sellItems sid totalReceived (si.totalAmount - totalReceived)
        let s2 : Store := { s1 with sellItems := newItems }
        (s2, Except.ok (si.totalAmount - totalReceived))
  | _, _, _ => (s, Except.error Err.invalidArgument)

/-- `DELETE /api/payments/:id`: admin gate, lookup, hard delete, recompute
the owning sell item's `paymentReceived`/`balanceLeft` from the remaining
payments.  Not transactional in the source: if the owning sell item were
absent the row would already be deleted when the recompute throws. -/
def deletePayment (s : Store) (u : User) (paymentId : Nat) : Store × Except Err Unit :=
  if u.role == Role.admin then
    match s.payments.find? (fun p => p.id == paymentId) with
    | none => (s, Except.error Err.notFound)
    | some pay =>
      let s1 : Store := { s with payments := s.payments.filter (fun p => !(p.id == paymentId)) }
      let totalReceived := paymentsSum s1.payments pay.sellItemId
      match s.sellItems.find? (fun si => si.id == pay.sellItemId) with
      | none => (s1, Except.error Err.storeFailure)
      | some si =>
        let newItems := setItemBalances s1.sellItems pay.sellItemId totalReceived (si.totalAmount - totalReceived)
        ({ s1 with sellItems := newItems }, Except.ok ())
  else (s, Except.error Err.forbidden)

structure CreateResult where
  ppId : Nat
  allocationsCount : Nat
  creditAdded : ℚ
deriving DecidableEq, Repr

/-- Date of the parent transaction of a sell item (used for the
`orderBy: { transaction: { date: 'asc' } }` clause). -/
def txDate (txs : List Txn) (si : SellItem) : Int :=
  match txs.find? (fun t => t.id == si.transactionId) with
  | some t => t.date
  | none => 0

/-- The `where` clause of the FIFO fetch: the item belongs to a sell
transaction of the party and has `balanceLeft > 0`. -/
def isEligible (txs : List Txn) (pid : Nat) (si : SellItem) : Bool :=
  (match txs.find? (fun t => t.id == si.transactionId) with
   | some t => t.partyId == pid && t.type == TxType.sell
   | none => false) && decide (0 < si.balanceLeft)

def insertByDate (txs : List Txn) (si : SellItem) : List SellItem → List SellItem
  | [] => [si]
  | x :: xs =>
    if txDate txs si ≤ txDate txs x then si :: x :: xs else x :: insertByDate txs si xs

/-- Ascending sort by parent-transaction date (oldest first; the source's
tie-break is unspecified, this is one deterministic realisation). -/
def sortByDate (txs : List Txn) : List SellItem → List SellItem
  | [] => []
  | x :: xs => insertByDate txs x (sortByDate txs xs)

/-- The fetched FIFO target list: sell items of the party's sell
transactions with positive balance, oldest transaction date first. -/
def eligibleItems (txs : List Txn) (items : List SellItem) (pid : Nat) : List SellItem :=
  sortByDate txs (items.filter (isEligible txs pid))

/-- The FIFO allocation loop of `POST /api/party-payments`: walks the
fetched snapshot list, breaks once `remaining <= 0`, allocates
`min(remaining, balanceLeft)` to each item and sets the item's balances
from the snapshot values.  Returns the updated item list, the allocation
records accumulated for `createMany`, and the final remaining amount. -/
def fifoLoop (ppId : Nat) : ℚ → List SellItem → List SellItem →
    List SellItem × List PaymentAllocation × ℚ
  | remaining, [], items => (items, [], remaining)
  | remaining, si :: rest, items =>
    if remaining ≤ 0 then (items, [], remaining)
    else
      let a := min remaining si.balanceLeft
      let items1 := setItemBalances items si.id (si.paymentReceived + a) (si.balanceLeft - a)
      let out := fifoLoop ppId (remaining - a) rest items1
      (out.1, ⟨ppId, si.id, a⟩ :: out.2.1, out.2.2)

/-- Per-row effect of
`party.update({ where: { id: pid }, data: { creditBalance: c } })`. -/
def setCreditFun (pid : Nat) (c : ℚ) (p : Party) : Party :=
  if p.id == pid then { p with creditBalance := c } else p

def setPartyCredit (parties : List Party) (pid : Nat) (c : ℚ) : List Party :=
  parties.map (setCreditFun pid c)

/-- Body of the `$transaction` of `POST /api/party-payments`: create the
PartyPayment row, run the FIFO loop over the fetched eligible items,
`createMany` the accumulated allocations, and bank any positive remainder
on the party's credit balance (set to the pre-read value plus the
remainder). -/
def createPPTx (s : Store) (u : User) (pid : Nat) (amt : ℚ) (d : Int) (party : Party) :
    Store × CreateResult :=
  let ppId := s.nextId
  let pp : PartyPayment :=
    { id := ppId, partyId := pid, amount := amt, paymentDate := d,
      createdBy := u.id, isDeleted := false, deletedBy := none }
  let s1 : Store := { s with partyPayments := s.partyPayments ++ [pp], nextId := s.nextId + 1 }
  let out := fifoLoop ppId amt (eligibleItems s1.transactions s1.sellItems pid) s1.sellItems
  let creditAdded : ℚ := if 0 < out.2.2 then out.2.2 else 0
  let s2 : Store := { s1 with sellItems := out.1, allocations := s1.allocations ++ out.2.1 }
  let s3 : Store :=
    if 0 < out.2.2 then
      { s2 with parties := setPartyCredit s2.parties pid (party.creditBalance + out.2.2) }
    else s2
  (s3, { ppId := ppId, allocationsCount := out.2.1.length, creditAdded := creditAdded })

/-- `POST /api/party-payments`: validation (JS falsy test), party lookup,
then the atomic transaction `createPPTx`. -/
def createPartyPayment (s : Store) (u : User) (partyId? : Option Nat)
    (amount? : Option ℚ) (date? : Option Int) : Store × Except Err CreateResult :=
  match partyId?, amount?, date? with
  | some pid, some amt, some d =>
    if amt == 0 then (s, Except.error Err.invalidArgument)
    else
      match s.parties.find? (fun p => p.id == pid) with
      | none => (s, Except.error Err.notFound)
      | some party =>
        let out := createPPTx s u pid amt d party
        (out.1, Except.ok out.2)
  | _, _, _ => (s, Except.error Err.invalidArgument)

/-- Per-row effect of the reversal update
`paymentReceived: { decrement: a }, balanceLeft: { increment: a }`. -/
def adjFun (sid : Nat) (a : ℚ) (si : SellItem) : SellItem :=
  if si.id == sid then
    { si with paymentReceived := si.paymentReceived - a, balanceLeft := si.balanceLeft + a }
  else si

def adjPR (items : List SellItem) (sid : Nat) (a : ℚ) : List SellItem :=
  items.map (adjFun sid a)

/-- One step of the reversal loop, guarded by `if (allocation.sellItem)`. -/
def revStep (al : PaymentAllocation) (items : List SellItem) : List SellItem :=
  if items.any (fun si => si.id == al.sellItemId) then adjPR items al.sellItemId al.amount
  else items

/-- The reversal loop of `DELETE /api/party-payments/:id` over the
payment's allocation rows. -/
def revItems (allocs : List PaymentAllocation) (items : List SellItem) : List SellItem :=
  allocs.foldl (fun its al => revStep al its) items

/-- Per-row effect of the soft delete
(`isDeleted: true, deletedBy: actor`). -/
def markFun (ppId : Nat) (uid : Nat) (pp : PartyPayment) : PartyPayment :=
  if pp.id == ppId then { pp with isDeleted := true, deletedBy := some uid } else pp

def markDeleted (pps : List PartyPayment) (ppId : Nat) (uid : Nat) : List PartyPayment :=
  pps.map (markFun ppId uid)

/-- Allocation rows belonging to one PartyPayment. -/
def allocsOf (allocs : List PaymentAllocation) (ppId : Nat) : List PaymentAllocation :=
  allocs.filter (fun a => a.partyPaymentId == ppId)

def sumAmounts (allocs : List PaymentAllocation) : ℚ :=
  (allocs.map (fun a => a.amount)).sum

/-- Per-row effect of `creditBalance: { decrement: a }`. -/
def decCreditFun (pid : Nat) (a : ℚ) (p : Party) : Party :=
  if p.id == pid then { p with creditBalance := p.creditBalance - a } else p

def decPartyCredit (parties : List Party) (pid : Nat) (a : ℚ) : List Party :=
  parties.map (decCreditFun pid a)

/-- Body of the `$transaction` of `DELETE /api/party-payments/:id`:
soft-delete the row, reverse every allocation, and decrement the party's
credit by `amount - sum(allocations)` when that is positive.  A missing
party at that last update aborts the whole transaction (the original
store is returned). -/
def deletePPTx (s : Store) (u : User) (pp : PartyPayment) : Store × Except Err Unit :=
  if 0 < pp.amount - sumAmounts (allocsOf s.allocations pp.id) then
    match s.parties.find? (fun p => p.id == pp.partyId) with
    | none => (s, Except.error Err.storeFailure)
    | some _ =>
      ({ s with partyPayments := markDeleted s.partyPayments pp.id u.id,
                sellItems := revItems (allocsOf s.allocations pp.id) s.sellItems,
                parties := decPartyCredit s.parties pp.partyId
                  (pp.amount - sumAmounts (allocsOf s.allocations pp.id)) },
       Except.ok ())
  else
    ({ s with partyPayments := markDeleted s.partyPayments pp.id u.id,
              sellItems := revItems (allocsOf s.allocations pp.id) s.sellItems },
     Except.ok ())

/-- `DELETE /api/party-payments/:id`: admin gate, lookup, double-deletion
guard, then the atomic reversal `deletePPTx`. -/
def deletePartyPayment (s : Store) (u : User) (ppIdReq : Nat) : Store × Except Err Unit :=
  if u.role == Role.admin then
    match s.partyPayments.find? (fun p => p.id == ppIdReq) with
    | none => (s, Except.error Err.notFound)
    | some pp =>
      if pp.isDeleted then (s, Except.error Err.alreadyDeleted)
      else deletePPTx s u pp
  else (s, Except.error Err.forbidden)

structure SellItemView where
  id : Nat
  total_amount : ℚ
  payment_received : ℚ
  balance_left : ℚ
deriving DecidableEq, Repr

structure DetailsView where
  sell_items : List SellItemView
  total_received : ℚ
  credit_balance : ℚ
deriving DecidableEq, Repr

/-- Sell items of the party's sell transactions, as joined by the party
detail endpoint. -/
def partySellItems (s : Store) (pid : Nat) : List SellItem :=
  (s.transactions.filter (fun t => t.partyId == pid && t.type == TxType.sell)).flatMap
    (fun t => s.sellItems.filter (fun si => si.transactionId == t.id))

/-- Per-item mapping of `GET /api/parties/:id/details`: `payment_received`
is the sum of the item's direct Payment rows, `balance_left` is
`totalAmount` minus that sum. -/
def sellItemView (s : Store) (si : SellItem) : SellItemView :=
  { id := si.id, total_amount := si.totalAmount,
    payment_received := paymentsSum s.payments si.id,
    balance_left := si.totalAmount - paymentsSum s.payments si.id }

/-- `GET /api/parties/:id/details`, restricted to the fields the claims
are about: the mapped sell items, `summary.total_received` (sum of the
stored `paymentReceived` fields) and `summary.credit_balance`. -/
def getPartyDetails (s : Store) (pid : Nat) : Option DetailsView :=
  match s.parties.find? (fun p => p.id == pid) with
  | none => none
  | some party =>
    some { sell_items := (partySellItems s pid).map (sellItemView s),
           total_received := ((partySellItems s pid).map (fun si => si.paymentReceived)).sum,
           credit_balance := party.creditBalance }

/-- Well-formedness of a store: distinct ids, and `nextId` fresh for every
id-bearing row the payment routes create. -/
def Store.WF (s : Store) : Prop :=
  (s.parties.map Party.id).Nodup ∧
  (s.sellItems.map SellItem.id).Nodup ∧
  (s.partyPayments.map PartyPayment.id).Nodup ∧
  (∀ pp ∈ s.partyPayments, pp.id < s.nextId) ∧
  (∀ a ∈ s.allocations, a.partyPaymentId < s.nextId) ∧
  (∀ p ∈ s.payments, p.id < s.nextId)

instance (s : Store) : Decidable s.WF := by
  unfold Store.WF
  infer_instance

/-- The balance invariant of the spec: `balanceLeft == totalAmount -
paymentReceived` for every sell item at rest. -/
def balInv (s : Store) : Prop :=
  ∀ si ∈ s.sellItems, si.balanceLeft = si.totalAmount - si.paymentReceived

instance (s : Store) : Decidable (balInv s) := by
  unfold balInv
  infer_instance

/-- Sum of the allocation amounts recorded for one PartyPayment id. -/
def allocSum (allocs : List PaymentAllocation) (ppId : Nat) : ℚ :=
  sumAmounts (allocsOf allocs ppId)

/-- The credit portion of a PartyPayment, recomputed from its allocation
rows: the part of its amount not covered by allocations, clamped at 0
(both the creation and the reversal path only move credit when this is
positive). -/
def creditPortion (allocs : List PaymentAllocation) (pp : PartyPayment) : ℚ :=
  max 0 (pp.amount - allocSum allocs pp.id)

/-- Sum of the credit portions of a party's non-deleted PartyPayments. -/
def portionSum (allocs : List PaymentAllocation) (pps : List PartyPayment) (pid : Nat) : ℚ :=
  (pps.map
    (fun pp => if pp.partyId == pid && !pp.isDeleted then creditPortion allocs pp else 0)).sum

/-- Credit-balance invariant: every party's stored credit equals the sum
of the credit portions of its non-deleted PartyPayments. -/
def creditInv (s : Store) : Prop :=
  ∀ p ∈ s.parties, p.creditBalance = portionSum s.allocations s.partyPayments p.id

instance (s : Store) : Decidable (creditInv s) := by
  unfold creditInv
  infer_instance

/-- The total outstanding balance of a party: the sum of the positive
balances of the sell items of its sell transactions. -/
def outstanding (s : Store) (pid : Nat) : ℚ :=
  ((s.sellItems.filter (isEligible s.transactions pid)).map SellItem.balanceLeft).sum

/-- The four payment operations, as a step type for sequences of calls. -/
inductive Op
  | pay (u : User) (sellItemId? : Option Nat) (amount? : Option ℚ) (date? : Option Int)
  | delPay (u : User) (paymentId : Nat)
  | partyPay (u : User) (partyId? : Option Nat) (amount? : Option ℚ) (date? : Option Int)
  | delPartyPay (u : User) (ppId : Nat)

/-- The store an operation leaves behind (unchanged when it errors). -/
def applyOp (s : Store) : Op → Store
  | Op.pay u sid amt d => (recordPayment s u sid amt d).1
  | Op.delPay u pid => (deletePayment s u pid).1
  | Op.partyPay u pid amt d => (createPartyPayment s u pid amt d).1
  | Op.delPartyPay u ppid => (deletePartyPayment s u ppid).1

/-! ### Basic facts about the per-row update maps -/

theorem setFun_id (sid : Nat) (pr bl : ℚ) (si : SellItem) : (setFun sid pr bl si).id = si.id := by
  unfold setFun
  split <;> rfl

theorem setFun_total (sid : Nat) (pr bl : ℚ) (si : SellItem) :
    (setFun sid pr bl si).totalAmount = si.totalAmount := by
  unfold setFun
  split <;> rfl

theorem adjFun_id (sid : Nat) (a : ℚ) (si : SellItem) : (adjFun sid a si).id = si.id := by
  unfold adjFun
  split <;> rfl

theorem setItemBalances_map_id (items : List SellItem) (sid : Nat) (pr bl : ℚ) :
    (setItemBalances items sid pr bl).map SellItem.id = items.map SellItem.id := by
  unfold setItemBalances
  rw [List.map_map]
  exact List.map_congr_left (fun x _ => setFun_id sid pr bl x)

theorem adjPR_map_id (items : List SellItem) (sid : Nat) (a : ℚ) :
    (adjPR items sid a).map SellItem.id = items.map SellItem.id := by
  unfold adjPR
  rw [List.map_map]
  exact List.map_congr_left (fun x _ => adjFun_id sid a x)

theorem revStep_map_id (al : PaymentAllocation) (items : List SellItem) :
    (revStep al items).map SellItem.id = items.map SellItem.id := by
  unfold revStep
  split
  · exact adjPR_map_id items al.sellItemId al.amount
  · rfl

theorem revItems_map_id (allocs : List PaymentAllocation) :
    ∀ items : List SellItem, (revItems allocs items).map SellItem.id = items.map SellItem.id := by
  induction allocs with
  | nil => intro items; rfl
  | cons al rest ih =>
    intro items
    show (revItems rest (revStep al items)).map SellItem.id = items.map SellItem.id
    rw [ih, revStep_map_id]

theorem mem_setItemBalances {items : List SellItem} {sid : Nat} {pr bl : ℚ} {y : SellItem}
    (hy : y ∈ setItemBalances items sid pr bl) : ∃ x ∈ items, y = setFun sid pr bl x := by
  unfold setItemBalances at hy
  obtain ⟨x, hx, h⟩ := List.mem_map.mp hy
  exact ⟨x, hx, h.symm⟩

theorem setFun_of_ne {sid : Nat} {pr bl : ℚ} {si : SellItem} (h : si.id ≠ sid) :
    setFun sid pr bl si = si := by
  unfold setFun
  rw [if_neg]
  simp [h]

theorem adjFun_of_ne {sid : Nat} {a : ℚ} {si : SellItem} (h : si.id ≠ sid) :
    adjFun sid a si = si := by
  unfold adjFun
  rw [if_neg]
  simp [h]

theorem setItemBalances_mem_of_ne {items : List SellItem} {sid : Nat} {pr bl : ℚ}
    {z : SellItem} (hz : z ∈ items) (hne : z.id ≠ sid) :
    z ∈ setItemBalances items sid pr bl := by
  have h : setFun sid pr bl z = z := setFun_of_ne hne
  unfold setItemBalances
  exact h ▸ List.mem_map_of_mem (setFun sid pr bl) hz

/-! ### The insertion sort used for the FIFO fetch is a permutation -/

theorem insertByDate_perm (txs : List Txn) (si : SellItem) (l : List SellItem) :
    (insertByDate txs si l).Perm (si :: l) := by
  induction l with
  | nil => exact List.Perm.refl _
  | cons x xs ih =>
    unfold insertByDate
    split
    · exact List.Perm.refl _
    · exact (ih.cons x).trans (List.Perm.swap si x xs)

theorem sortByDate_perm (txs : List Txn) (l : List SellItem) : (sortByDate txs l).Perm l := by
  induction l with
  | nil => exact List.Perm.refl _
  | cons x xs ih => exact (insertByDate_perm txs x (sortByDate txs xs)).trans (ih.cons x)

theorem eligibleItems_perm (txs : List Txn) (items : List SellItem) (pid : Nat) :
    (eligibleItems txs items pid).Perm (items.filter (isEligible txs pid)) :=
  sortByDate_perm txs (items.filter (isEligible txs pid))

theorem eligibleItems_subset (txs : List Txn) (items : List SellItem) (pid : Nat) :
    ∀ x ∈ eligibleItems txs items pid, x ∈ items := fun x hx =>
  List.mem_of_mem_filter ((eligibleItems_perm txs items pid).mem_iff.mp hx)

theorem eligibleItems_nodup (txs : List Txn) (items : List SellItem) (pid : Nat)
    (h : (items.map SellItem.id).Nodup) :
    ((eligibleItems txs items pid).map SellItem.id).Nodup := by
  rw [((eligibleItems_perm txs items pid).map SellItem.id).nodup_iff]
  exact ((items.filter_sublist (p := isEligible txs pid)).map SellItem.id).nodup h

theorem eligibleItems_pos (txs : List Txn) (items : List SellItem) (pid : Nat) :
    ∀ x ∈ eligibleItems txs items pid, 0 < x.balanceLeft := by
  intro x hx
  have h := List.of_mem_filter ((eligibleItems_perm txs items pid).mem_iff.mp hx)
  unfold isEligible at h
  have h2 := (Bool.and_eq_true _ _).mp h
  exact of_decide_eq_true h2.2

theorem eligibleItems_sum (txs : List Txn) (items : List SellItem) (pid : Nat) :
    ((eligibleItems txs items pid).map SellItem.balanceLeft).sum =
      ((items.filter (isEligible txs pid)).map SellItem.balanceLeft).sum :=
  ((eligibleItems_perm txs items pid).map SellItem.balanceLeft).sum_eq

/-! ### Core facts about the FIFO allocation loop -/

theorem sumAmounts_nil : sumAmounts [] = 0 := rfl

theorem sumAmounts_cons (al : PaymentAllocation) (l : List PaymentAllocation) :
    sumAmounts (al :: l) = al.amount + sumAmounts l := by
  unfold sumAmounts
  rw [List.map_cons, List.sum_cons]

theorem sumAmounts_append (l₁ l₂ : List PaymentAllocation) :
    sumAmounts (l₁ ++ l₂) = sumAmounts l₁ + sumAmounts l₂ := by
  unfold sumAmounts
  rw [List.map_append, List.sum_append]

theorem fifoLoop_sum (ppId : Nat) (L : List SellItem) :
    ∀ (rem : ℚ) (items : List SellItem),
      sumAmounts (fifoLoop ppId rem L items).2.1 + (fifoLoop ppId rem L items).2.2 = rem := by
  induction L with
  | nil =>
    intro rem items
    show sumAmounts [] + rem = rem
    rw [sumAmounts_nil, zero_add]
  | cons si rest ih =>
    intro rem items
    unfold fifoLoop
    split
    · show sumAmounts [] + rem = rem
      rw [sumAmounts_nil, zero_add]
    · show sumAmounts (⟨ppId, si.id, min rem si.balanceLeft⟩ ::
          (fifoLoop ppId (rem - min rem si.balanceLeft) rest _).2.1) +
          (fifoLoop ppId (rem - min rem si.balanceLeft) rest _).2.2 = rem
      rw [sumAmounts_cons, add_assoc, ih]
      simp

theorem fifoLoop_nonneg (ppId : Nat) (L : List SellItem) :
    ∀ (rem : ℚ) (items : List SellItem), 0 ≤ rem → 0 ≤ (fifoLoop ppId rem L items).2.2 := by
  induction L with
  | nil => intro rem items h; exact h
  | cons si rest ih =>
    intro rem items h
    unfold fifoLoop
    split
    · exact h
    · exact ih _ _ (by simp [sub_nonneg, min_le_left])

theorem fifoLoop_ppId (ppId : Nat) (L : List SellItem) :
    ∀ (rem : ℚ) (items : List SellItem),
      ∀ al ∈ (fifoLoop ppId rem L items).2.1, al.partyPaymentId = ppId := by
  induction L with
  | nil => intro rem items al h; exact absurd h (List.not_mem_nil al)
  | cons si rest ih =>
    intro rem items al h
    unfold fifoLoop at h
    split at h
    · exact absurd h (List.not_mem_nil al)
    · rcases List.mem_cons.mp h with h1 | h2
      · rw [h1]
      · exact ih _ _ al h2

theorem fifoLoop_map_id (ppId : Nat) (L : List SellItem) :
    ∀ (rem : ℚ) (items : List SellItem),
      (fifoLoop ppId rem L items).1.map SellItem.id = items.map SellItem.id := by
  induction L with
  | nil => intro rem items; rfl
  | cons si rest ih =>
    intro rem items
    unfold fifoLoop
    split
    · rfl
    · show (fifoLoop ppId _ rest _).1.map SellItem.id = items.map SellItem.id
      rw [ih, setItemBalances_map_id]

/-! ### Reversal steps commute, and reversal undoes the FIFO loop -/

theorem adjFun_comm (sid1 sid2 : Nat) (a1 a2 : ℚ) (si : SellItem) :
    adjFun sid2 a2 (adjFun sid1 a1 si) = adjFun sid1 a1 (adjFun sid2 a2 si) := by
  unfold adjFun
  by_cases h1 : (si.id == sid1) = true <;> by_cases h2 : (si.id == sid2) = true <;>
    simp only [h1, h2, if_pos, if_neg, Bool.not_eq_true] <;> simp [h1, h2]
  constructor <;> ring

theorem adjPR_comm (items : List SellItem) (sid1 sid2 : Nat) (a1 a2 : ℚ) :
    adjPR (adjPR items sid1 a1) sid2 a2 = adjPR (adjPR items sid2 a2) sid1 a1 := by
  unfold adjPR
  rw [List.map_map, List.map_map]
  exact List.map_congr_left (fun x _ => adjFun_comm sid1 sid2 a1 a2 x)

theorem any_id_eq_map (l : List SellItem) (k : Nat) :
    l.any (fun si => si.id == k) = (l.map SellItem.id).any (fun n => n == k) := by
  induction l with
  | nil => rfl
  | cons x xs ih => simp [List.any_cons, ih]

theorem any_id_map_eq {l1 l2 : List SellItem} (h : l1.map SellItem.id = l2.map SellItem.id)
    (k : Nat) : l1.any (fun si => si.id == k) = l2.any (fun si => si.id == k) := by
  rw [any_id_eq_map, any_id_eq_map, h]

theorem adjPR_any (items : List SellItem) (sid : Nat) (a : ℚ) (k : Nat) :
    (adjPR items sid a).any (fun si => si.id == k) = items.any (fun si => si.id == k) :=
  any_id_map_eq (adjPR_map_id items sid a) k

theorem revStep_eq_pos {al : PaymentAllocation} {items : List SellItem}
    (h : (items.any (fun si => si.id == al.sellItemId)) = true) :
    revStep al items = adjPR items al.sellItemId al.amount := by
  unfold revStep
  rw [if_pos h]

theorem revStep_eq_neg {al : PaymentAllocation} {items : List SellItem}
    (h : ¬(items.any (fun si => si.id == al.sellItemId)) = true) :
    revStep al items = items := by
  unfold revStep
  rw [if_neg h]

theorem revStep_any (al : PaymentAllocation) (items : List SellItem) (k : Nat) :
    (revStep al items).any (fun si => si.id == k) = items.any (fun si => si.id == k) :=
  any_id_map_eq (revStep_map_id al items) k

theorem revStep_comm (a b : PaymentAllocation) (items : List SellItem) :
    revStep a (revStep b items) = revStep b (revStep a items) := by
  by_cases hb : (items.any (fun si => si.id == b.sellItemId)) = true
  · by_cases ha : (items.any (fun si => si.id == a.sellItemId)) = true
    · rw [revStep_eq_pos hb, revStep_eq_pos ha,
        revStep_eq_pos (by rw [adjPR_any]; exact ha),
        revStep_eq_pos (by rw [adjPR_any]; exact hb)]
      exact adjPR_comm items b.sellItemId a.sellItemId b.amount a.amount
    · rw [revStep_eq_neg ha, revStep_eq_pos hb,
        revStep_eq_neg (by rw [adjPR_any]; exact ha)]
  · by_cases ha : (items.any (fun si => si.id == a.sellItemId)) = true
    · rw [revStep_eq_neg hb, revStep_eq_pos ha,
        revStep_eq_neg (by rw [adjPR_any]; exact hb)]
    · rw [revStep_eq_neg ha, revStep_eq_neg hb, revStep_eq_neg ha]

theorem revItems_revStep (allocs : List PaymentAllocation) :
    ∀ (a : PaymentAllocation) (items : List SellItem),
      revItems allocs (revStep a items) = revStep a (revItems allocs items) := by
  induction allocs with
  | nil => intro a items; rfl
  | cons b rest ih =>
    intro a items
    show revItems rest (revStep b (revStep a items)) = revStep a (revItems rest (revStep b items))
    rw [revStep_comm b a items, ih a (revStep b items)]

theorem any_of_mem {items : List SellItem} {si : SellItem} (h : si ∈ items) :
    items.any (fun x => x.id == si.id) = true :=
  List.any_eq_true.mpr ⟨si, h, by simp⟩

theorem adjPR_setItemBalances {items : List SellItem} {si : SellItem} (a : ℚ)
    (hmem : si ∈ items) (hnd : (items.map SellItem.id).Nodup) :
    adjPR (setItemBalances items si.id (si.paymentReceived + a) (si.balanceLeft - a)) si.id a
      = items := by
  unfold adjPR setItemBalances
  rw [List.map_map]
  have : ∀ x ∈ items, (adjFun si.id a ∘ setFun si.id (si.paymentReceived + a) (si.balanceLeft - a)) x = x := by
    intro x hx
    by_cases hid : (x.id == si.id) = true
    · have hxsi : x = si := List.inj_on_of_nodup_map hnd hx hmem (beq_iff_eq.mp hid)
      subst hxsi
      show adjFun x.id a (setFun x.id (x.paymentReceived + a) (x.balanceLeft - a) x) = x
      unfold setFun adjFun
      simp only [BEq.refl, if_pos]
      have h1 : x.paymentReceived + a - a = x.paymentReceived := by ring
      have h2 : x.balanceLeft - a + a = x.balanceLeft := by ring
      rw [h1, h2]
    · show adjFun si.id a (setFun si.id (si.paymentReceived + a) (si.balanceLeft - a) x) = x
      rw [setFun_of_ne (by simpa using hid), adjFun_of_ne (by simpa using hid)]
  rw [List.map_congr_left this, List.map_id']

theorem revItems_fifoLoop (ppId : Nat) (L : List SellItem) :
    ∀ (rem : ℚ) (items : List SellItem),
      (∀ x ∈ L, x ∈ items) → (items.map SellItem.id).Nodup → (L.map SellItem.id).Nodup →
      revItems (fifoLoop ppId rem L items).2.1 (fifoLoop ppId rem L items).1 = items := by
  induction L with
  | nil => intro rem items _ _ _; rfl
  | cons si rest ih =>
    intro rem items hsub hnd hndL
    unfold fifoLoop
    split
    · rfl
    · have hsi : si ∈ items := hsub si (List.mem_cons_self si rest)
      have hndr : (rest.map SellItem.id).Nodup := by
        rw [List.map_cons] at hndL
        exact hndL.of_cons
      have hid_notin : si.id ∉ rest.map SellItem.id := by
        rw [List.map_cons] at hndL
        exact (List.nodup_cons.mp hndL).1
      have hsub1 : ∀ x ∈ rest,
          x ∈ setItemBalances items si.id (si.paymentReceived + min rem si.balanceLeft)
                (si.balanceLeft - min rem si.balanceLeft) := by
        intro x hx
        have hxid : x.id ≠ si.id := by
          intro he
          exact hid_notin (he ▸ List.mem_map_of_mem SellItem.id hx)
        exact setItemBalances_mem_of_ne (hsub x (List.mem_cons_of_mem si hx)) hxid
      have hnd1 : ((setItemBalances items si.id (si.paymentReceived + min rem si.balanceLeft)
          (si.balanceLeft - min rem si.balanceLeft)).map SellItem.id).Nodup := by
        rw [setItemBalances_map_id]
        exact hnd
      show revItems (⟨ppId, si.id, min rem si.balanceLeft⟩ :: _) _ = items
      have hstep : ∀ (x : List SellItem) (al : PaymentAllocation) (allocs : List PaymentAllocation),
          revItems (al :: allocs) x = revItems allocs (revStep al x) := fun _ _ _ => rfl
      rw [hstep, revItems_revStep,
        ih (rem - min rem si.balanceLeft) _ hsub1 hnd1 hndr]
      unfold revStep
      have hany : (setItemBalances items si.id (si.paymentReceived + min rem si.balanceLeft)
          (si.balanceLeft - min rem si.balanceLeft)).any (fun x => x.id == si.id) = true := by
        rw [any_id_map_eq (setItemBalances_map_id items si.id _ _) si.id]
        exact any_of_mem hsi
      rw [if_pos hany]
      exact adjPR_setItemBalances (min rem si.balanceLeft) hsi hnd

/-! ### The FIFO loop and reversal preserve the balance invariant -/

theorem fifoLoop_balInv (ppId : Nat) (L : List SellItem) :
    ∀ (rem : ℚ) (items : List SellItem),
      (items.map SellItem.id).Nodup →
      (∀ x ∈ items, x.balanceLeft = x.totalAmount - x.paymentReceived) →
      (∀ x ∈ L, x ∈ items) → (L.map SellItem.id).Nodup →
      ∀ y ∈ (fifoLoop ppId rem L items).1, y.balanceLeft = y.totalAmount - y.paymentReceived := by
  induction L with
  | nil => intro rem items _ hinv _ _ y hy; exact hinv y hy
  | cons si rest ih =>
    intro rem items hnd hinv hsub hndL
    unfold fifoLoop
    split
    · exact hinv
    · have hsi : si ∈ items := hsub si (List.mem_cons_self si rest)
      have hndr : (rest.map SellItem.id).Nodup := by
        rw [List.map_cons] at hndL
        exact hndL.of_cons
      have hid_notin : si.id ∉ rest.map SellItem.id := by
        rw [List.map_cons] at hndL
        exact (List.nodup_cons.mp hndL).1
      have hnd1 : ((setItemBalances items si.id (si.paymentReceived + min rem si.balanceLeft)
          (si.balanceLeft - min rem si.balanceLeft)).map SellItem.id).Nodup := by
        rw [setItemBalances_map_id]
        exact hnd
      have hinv1 : ∀ x ∈ setItemBalances items si.id (si.paymentReceived + min rem si.balanceLeft)
          (si.balanceLeft - min rem si.balanceLeft),
          x.balanceLeft = x.totalAmount - x.paymentReceived := by
        intro y hy
        obtain ⟨x, hx, hyx⟩ := mem_setItemBalances hy
        subst hyx
        unfold setFun
        by_cases hid : (x.id == si.id) = true
        · have hxsi : x = si := List.inj_on_of_nodup_map hnd hx hsi (beq_iff_eq.mp hid)
          subst hxsi
          rw [if_pos hid]
          have := hinv x hx
          simp only []
          rw [this]
          ring
        · rw [if_neg (by simpa using hid)]
          exact hinv x hx
      have hsub1 : ∀ x ∈ rest,
          x ∈ setItemBalances items si.id (si.paymentReceived + min rem si.balanceLeft)
                (si.balanceLeft - min rem si.balanceLeft) := by
        intro x hx
        have hxid : x.id ≠ si.id := by
          intro he
          exact hid_notin (he ▸ List.mem_map_of_mem SellItem.id hx)
        exact setItemBalances_mem_of_ne (hsub x (List.mem_cons_of_mem si hx)) hxid
      exact ih (rem - min rem si.balanceLeft) _ hnd1 hinv1 hsub1 hndr

theorem adjPR_balInv {items : List SellItem} (sid : Nat) (a : ℚ)
    (hinv : ∀ x ∈ items, x.balanceLeft = x.totalAmount - x.paymentReceived) :
    ∀ y ∈ adjPR items sid a, y.balanceLeft = y.totalAmount - y.paymentReceived := by
  intro y hy
  unfold adjPR at hy
  obtain ⟨x, hx, hyx⟩ := List.mem_map.mp hy
  subst hyx
  unfold adjFun
  by_cases hid : (x.id == sid) = true
  · rw [if_pos hid]
    have := hinv x hx
    simp only []
    rw [this]
    ring
  · rw [if_neg (by simpa using hid)]
    exact hinv x hx

theorem revStep_balInv {items : List SellItem} (al : PaymentAllocation)
    (hinv : ∀ x ∈ items, x.balanceLeft = x.totalAmount - x.paymentReceived) :
    ∀ y ∈ revStep al items, y.balanceLeft = y.totalAmount - y.paymentReceived := by
  unfold revStep
  split
  · exact adjPR_balInv al.sellItemId al.amount hinv
  · exact hinv

theorem revItems_balInv (allocs : List PaymentAllocation) :
    ∀ (items : List SellItem),
      (∀ x ∈ items, x.balanceLeft = x.totalAmount - x.paymentReceived) →
      ∀ y ∈ revItems allocs items, y.balanceLeft = y.totalAmount - y.paymentReceived := by
  induction allocs with
  | nil => intro items hinv; exact hinv
  | cons al rest ih =>
    intro items hinv
    show ∀ y ∈ revItems rest (revStep al items), _
    exact ih (revStep al items) (revStep_balInv al hinv)

/-! ### Concrete fixtures -/

def u0 : User := ⟨100, Role.staff⟩

def admin0 : User := ⟨101, Role.admin⟩

/-- A party with three sell items of balances 100, 50, 200 on transactions
dated 10 < 20 < 30. -/
def s0 : Store :=
  { parties := [⟨1, 0⟩],
    transactions := [⟨1, 1, TxType.sell, 10⟩, ⟨2, 1, TxType.sell, 20⟩, ⟨3, 1, TxType.sell, 30⟩],
    sellItems := [⟨1, 1, 100, 0, 100⟩, ⟨2, 2, 50, 0, 50⟩, ⟨3, 3, 200, 0, 200⟩],
    payments := [], partyPayments := [], allocations := [], nextId := 10 }

/-- Same ledger as `s0` but with rows listed out of date order, so the
FIFO fetch actually has to order by transaction date. -/
def sFifo : Store :=
  { parties := [⟨1, 0⟩],
    transactions := [⟨3, 1, TxType.sell, 30⟩, ⟨1, 1, TxType.sell, 10⟩, ⟨2, 1, TxType.sell, 20⟩],
    sellItems := [⟨3, 3, 200, 0, 200⟩, ⟨1, 1, 100, 0, 100⟩, ⟨2, 2, 50, 0, 50⟩],
    payments := [], partyPayments := [], allocations := [], nextId := 10 }

/-- A store holding one already-soft-deleted PartyPayment. -/
def sDel : Store :=
  { parties := [⟨1, 0⟩],
    transactions := [⟨1, 1, TxType.sell, 10⟩],
    sellItems := [⟨1, 1, 100, 0, 100⟩],
    payments := [], partyPayments := [⟨5, 1, 100, 40, 100, true, some 101⟩],
    allocations := [], nextId := 10 }

/-- A party with total outstanding 150 (items of balances 100 and 50). -/
def sOver : Store :=
  { parties := [⟨1, 0⟩],
    transactions := [⟨1, 1, TxType.sell, 10⟩, ⟨2, 1, TxType.sell, 20⟩],
    sellItems := [⟨1, 1, 100, 0, 100⟩, ⟨2, 2, 50, 0, 50⟩],
    payments := [], partyPayments := [], allocations := [], nextId := 10 }

/-! ### C3 -/

/-- C3: createPartyPayment allocates oldest-first over the party's sell
items with positive balance, ordered ascending by the parent
transaction's date, giving each item min(remaining, balanceLeft) and
stopping when remaining reaches 0: for balances [100, 50, 200] on
transactions dated oldest to newest, a payment of 120 allocates
[100, 20, 0] respectively with creditAdded = 0. -/
theorem createPartyPayment_fifo_example :
    (createPartyPayment sFifo u0 (some 1) (some 120) (some 40)).2 =
      Except.ok { ppId := 10, allocationsCount := 2, creditAdded := 0 } ∧
    (createPartyPayment sFifo u0 (some 1) (some 120) (some 40)).1.allocations =
      [⟨10, 1, 100⟩, ⟨10, 2, 20⟩] ∧
    (createPartyPayment sFifo u0 (some 1) (some 120) (some 40)).1.sellItems =
      [⟨3, 3, 200, 0, 200⟩, ⟨1, 1, 100, 100, 0⟩, ⟨2, 2, 50, 20, 30⟩] := by
  refine ⟨?_, ?_, ?_⟩ <;>
    norm_num [createPartyPayment, createPPTx, fifoLoop, eligibleItems, sortByDate, insertByDate,
      isEligible, txDate, setItemBalances, setFun, setPartyCredit, setCreditFun, sFifo, u0]

/-! ### C6 -/

/-- C6 counterexample: a negative amount passes the JS falsy validation
(`!amount` is false for -5), so both payment routes accept it and mutate
the store instead of failing with InvalidArgument. -/
theorem negative_amount_not_rejected :
    (-5 : ℚ) ≤ 0 ∧
    (recordPayment s0 u0 (some 1) (some (-5)) (some 40)).2 = Except.ok 105 ∧
    (recordPayment s0 u0 (some 1) (some (-5)) (some 40)).1 ≠ s0 ∧
    (createPartyPayment s0 u0 (some 1) (some (-5)) (some 40)).2 =
      Except.ok { ppId := 10, allocationsCount := 0, creditAdded := 0 } ∧
    (createPartyPayment s0 u0 (some 1) (some (-5)) (some 40)).1 ≠ s0 := by
  refine ⟨by norm_num, ?_, ?_, ?_, ?_⟩ <;>
    norm_num [recordPayment, createPartyPayment, createPPTx, fifoLoop, eligibleItems, sortByDate,
      insertByDate, isEligible, txDate, setItemBalances, setFun, setPartyCredit, setCreditFun,
      paymentsSum, s0, u0, Store.mk.injEq]

/-- C6 (amended): recordPayment and createPartyPayment fail with
InvalidArgument and leave the store unchanged exactly when the amount is
missing or zero (the JS falsy test); negative amounts are accepted. -/
theorem missing_or_zero_amount_rejected (s : Store) (u : User)
    (sid? pid? : Option Nat) (amount? : Option ℚ) (d? : Option Int)
    (h : amount? = none ∨ amount? = some 0) :
    recordPayment s u sid? amount? d? = (s, Except.error Err.invalidArgument) ∧
    createPartyPayment s u pid? amount? d? = (s, Except.error Err.invalidArgument) := by
  rcases h with h | h <;> subst h
  · constructor
    · unfold recordPayment
      cases sid? <;> cases d? <;> rfl
    · unfold createPartyPayment
      cases pid? <;> cases d? <;> rfl
  · constructor
    · unfold recordPayment
      cases sid? <;> cases d? <;> rfl
    · unfold createPartyPayment
      cases pid? <;> cases d? <;> rfl

/-- Witness for the amended C6 at a concrete input. -/
theorem missing_or_zero_amount_rejected_witness :
    recordPayment s0 u0 (some 1) (some 0) (some 40) = (s0, Except.error Err.invalidArgument) ∧
    createPartyPayment s0 u0 (some 1) (some 0) (some 40) =
      (s0, Except.error Err.invalidArgument) :=
  missing_or_zero_amount_rejected s0 u0 (some 1) (some 1) (some 0) (some 40) (Or.inr rfl)

/-! ### C7 -/

/-- C7: deletePayment and deletePartyPayment invoked by a non-admin actor
fail with Forbidden and leave the store (all balances, rows and credit
balances) unchanged. -/
theorem nonadmin_deletion_forbidden (s : Store) (u : User) (payId ppId : Nat)
    (h : u.role ≠ Role.admin) :
    deletePayment s u payId = (s, Except.error Err.forbidden) ∧
    deletePartyPayment s u ppId = (s, Except.error Err.forbidden) := by
  constructor
  · unfold deletePayment
    rw [if_neg (by simp [h])]
  · unfold deletePartyPayment
    rw [if_neg (by simp [h])]

/-- Witness for C7 at a concrete input. -/
theorem nonadmin_deletion_forbidden_witness :
    deletePayment s0 u0 1 = (s0, Except.error Err.forbidden) ∧
    deletePartyPayment s0 u0 1 = (s0, Except.error Err.forbidden) :=
  nonadmin_deletion_forbidden s0 u0 1 1 (by decide)

/-! ### C8 -/

/-- C8: a deletePartyPayment call (by an admin, who passes the role gate)
on an already-soft-deleted PartyPayment fails with AlreadyDeleted and
performs no mutation. -/
theorem delete_already_deleted_noop (s : Store) (u : User) (ppId : Nat)
    (pp : PartyPayment) (hadmin : u.role = Role.admin)
    (hfind : s.partyPayments.find? (fun p => p.id == ppId) = some pp)
    (hdel : pp.isDeleted = true) :
    deletePartyPayment s u ppId = (s, Except.error Err.alreadyDeleted) := by
  unfold deletePartyPayment
  rw [if_pos (by simp [hadmin]), hfind]
  simp [hdel]

/-- Witness for C8 at a concrete input. -/
theorem delete_already_deleted_noop_witness :
    deletePartyPayment sDel admin0 5 = (sDel, Except.error Err.alreadyDeleted) :=
  delete_already_deleted_noop sDel admin0 5 ⟨5, 1, 100, 40, 100, true, some 101⟩
    rfl (by decide) rfl

/-! ### Characterisation of the createPartyPayment transaction body -/

theorem createPPTx_eq (s : Store) (u : User) (pid : Nat) (amt : ℚ) (d : Int) (party : Party) :
    createPPTx s u pid amt d party =
      ({ parties :=
            if 0 < (fifoLoop s.nextId amt (eligibleItems s.transactions s.sellItems pid) s.sellItems).2.2 then
              setPartyCredit s.parties pid (party.creditBalance +
                (fifoLoop s.nextId amt (eligibleItems s.transactions s.sellItems pid) s.sellItems).2.2)
            else s.parties,
          transactions := s.transactions,
          sellItems := (fifoLoop s.nextId amt (eligibleItems s.transactions s.sellItems pid) s.sellItems).1,
          payments := s.payments,
          partyPayments := s.partyPayments ++ [⟨s.nextId, pid, amt, d, u.id, false, none⟩],
          allocations := s.allocations ++
            (fifoLoop s.nextId amt (eligibleItems s.transactions s.sellItems pid) s.sellItems).2.1,
          nextId := s.nextId + 1 },
        { ppId := s.nextId,
          allocationsCount :=
            (fifoLoop s.nextId amt (eligibleItems s.transactions s.sellItems pid) s.sellItems).2.1.length,
          creditAdded :=
            if 0 < (fifoLoop s.nextId amt (eligibleItems s.transactions s.sellItems pid) s.sellItems).2.2 then
              (fifoLoop s.nextId amt (eligibleItems s.transactions s.sellItems pid) s.sellItems).2.2
            else 0 }) := by
  unfold createPPTx
  dsimp only
  split <;> rfl

theorem allocsOf_append (l₁ l₂ : List PaymentAllocation) (k : Nat) :
    allocsOf (l₁ ++ l₂) k = allocsOf l₁ k ++ allocsOf l₂ k := by
  unfold allocsOf
  exact List.filter_append l₁ l₂

theorem allocsOf_eq_nil_of_lt {l : List PaymentAllocation} {k : Nat}
    (h : ∀ a ∈ l, a.partyPaymentId < k) : allocsOf l k = [] := by
  unfold allocsOf
  rw [List.filter_eq_nil_iff]
  intro a ha
  simp only [beq_iff_eq]
  exact Nat.ne_of_lt (h a ha)

theorem allocsOf_eq_self {l : List PaymentAllocation} {k : Nat}
    (h : ∀ a ∈ l, a.partyPaymentId = k) : allocsOf l k = l := by
  unfold allocsOf
  rw [List.filter_eq_self]
  intro a ha
  simp [h a ha]

/-! ### C1 -/

/-- C1: for every createPartyPayment call with an existing party and a
positive amount that commits, the sum of the amounts of the
PaymentAllocation records it creates plus the returned creditAdded equals
exactly the payment amount. -/
theorem createPartyPayment_conservation (s : Store) (u : User) (pid : Nat) (amt : ℚ)
    (d : Int) (s' : Store) (res : CreateResult) (hwf : s.WF) (hpos : 0 < amt)
    (h : createPartyPayment s u (some pid) (some amt) (some d) = (s', Except.ok res)) :
    allocSum s'.allocations res.ppId + res.creditAdded = amt := by
  unfold createPartyPayment at h
  dsimp only at h
  rw [if_neg (by simp only [beq_iff_eq]; exact ne_of_gt hpos)] at h
  cases hfind : s.parties.find? (fun p => p.id == pid) with
  | none =>
    rw [hfind] at h
    simp at h
  | some party =>
    rw [hfind] at h
    dsimp only at h
    rw [createPPTx_eq] at h
    rw [Prod.mk.injEq] at h
    obtain ⟨hs', hres⟩ := h
    have hres2 := Except.ok.inj hres
    subst hs'
    subst hres2
    dsimp only
    have hnil : allocsOf s.allocations s.nextId = [] :=
      allocsOf_eq_nil_of_lt hwf.2.2.2.2.1
    have hself : allocsOf
        (fifoLoop s.nextId amt (eligibleItems s.transactions s.sellItems pid) s.sellItems).2.1
        s.nextId =
        (fifoLoop s.nextId amt (eligibleItems s.transactions s.sellItems pid) s.sellItems).2.1 :=
      allocsOf_eq_self (fifoLoop_ppId s.nextId _ amt s.sellItems)
    unfold allocSum
    rw [allocsOf_append, hnil, hself, List.nil_append]
    by_cases hr : 0 < (fifoLoop s.nextId amt
        (eligibleItems s.transactions s.sellItems pid) s.sellItems).2.2
    · rw [if_pos hr]
      exact fifoLoop_sum s.nextId _ amt s.sellItems
    · rw [if_neg hr]
      have h0 : (fifoLoop s.nextId amt
          (eligibleItems s.transactions s.sellItems pid) s.sellItems).2.2 = 0 :=
        le_antisymm (not_lt.mp hr) (fifoLoop_nonneg s.nextId _ amt s.sellItems (le_of_lt hpos))
      have := fifoLoop_sum s.nextId
        (eligibleItems s.transactions s.sellItems pid) amt s.sellItems
      rw [h0, add_zero] at this
      rw [this, add_zero]

/-- Witness for C1 at a concrete input. -/
theorem createPartyPayment_conservation_witness :
    allocSum (createPartyPayment s0 u0 (some 1) (some 120) (some 40)).1.allocations
      (10 : Nat) + (0 : ℚ) = 120 :=
  createPartyPayment_conservation s0 u0 1 120 40
    (createPartyPayment s0 u0 (some 1) (some 120) (some 40)).1 ⟨10, 2, 0⟩
    (by decide) (by norm_num)
    (Prod.ext rfl (by
      norm_num [createPartyPayment, createPPTx, fifoLoop, eligibleItems, sortByDate, insertByDate,
        isEligible, txDate, setItemBalances, setFun, setPartyCredit, setCreditFun, s0, u0]))

/-! ### C2 -/

theorem balInv_setTotal {items : List SellItem} {sid : Nat} {si : SellItem} (tR : ℚ)
    (hnd : (items.map SellItem.id).Nodup) (hmem : si ∈ items) (hsid : si.id = sid)
    (hinv : ∀ x ∈ items, x.balanceLeft = x.totalAmount - x.paymentReceived) :
    ∀ y ∈ setItemBalances items sid tR (si.totalAmount - tR),
      y.balanceLeft = y.totalAmount - y.paymentReceived := by
  intro y hy
  obtain ⟨x, hx, hyx⟩ := mem_setItemBalances hy
  subst hyx
  unfold setFun
  by_cases hid : (x.id == sid) = true
  · have hxsi : x = si := by
      apply List.inj_on_of_nodup_map hnd hx hmem
      rw [beq_iff_eq] at hid
      rw [hid, hsid]
    subst hxsi
    rw [if_pos hid]
  · rw [if_neg hid]
    exact hinv x hx

theorem recordPayment_balInv (s : Store) (u : User) (sid? : Option Nat) (amt? : Option ℚ)
    (d? : Option Int) (hnd : (s.sellItems.map SellItem.id).Nodup) (hinv : balInv s) :
    balInv (recordPayment s u sid? amt? d?).1 := by
  unfold recordPayment
  cases sid? <;> cases amt? <;> cases d? <;> try exact hinv
  rename_i sid amt d
  dsimp only
  split
  · exact hinv
  · cases hfind : s.sellItems.find? (fun si => si.id == sid) with
    | none => exact hinv
    | some si =>
      exact balInv_setTotal _ hnd (List.mem_of_find?_eq_some hfind)
        (by simpa using List.find?_some hfind) hinv

theorem deletePayment_balInv (s : Store) (u : User) (payId : Nat)
    (hnd : (s.sellItems.map SellItem.id).Nodup) (hinv : balInv s) :
    balInv (deletePayment s u payId).1 := by
  unfold deletePayment
  split
  · cases hfindp : s.payments.find? (fun p => p.id == payId) with
    | none => exact hinv
    | some pay =>
      dsimp only
      cases hfind : s.sellItems.find? (fun si => si.id == pay.sellItemId) with
      | none => exact hinv
      | some si =>
        exact balInv_setTotal _ hnd (List.mem_of_find?_eq_some hfind)
          (by simpa using List.find?_some hfind) hinv
  · exact hinv

theorem createPartyPayment_balInv (s : Store) (u : User) (pid? : Option Nat)
    (amt? : Option ℚ) (d? : Option Int)
    (hnd : (s.sellItems.map SellItem.id).Nodup) (hinv : balInv s) :
    balInv (createPartyPayment s u pid? amt? d?).1 := by
  unfold createPartyPayment
  cases pid? <;> cases amt? <;> cases d? <;> try exact hinv
  rename_i pid amt d
  dsimp only
  split
  · exact hinv
  · cases hfind : s.parties.find? (fun p => p.id == pid) with
    | none => exact hinv
    | some party =>
      show balInv (createPPTx s u pid amt d party).1
      rw [createPPTx_eq]
      exact fifoLoop_balInv s.nextId (eligibleItems s.transactions s.sellItems pid) amt
        s.sellItems hnd hinv (eligibleItems_subset s.transactions s.sellItems pid)
        (eligibleItems_nodup s.transactions s.sellItems pid hnd)

theorem deletePPTx_balInv (s : Store) (u : User) (pp : PartyPayment) (hinv : balInv s) :
    balInv (deletePPTx s u pp).1 := by
  unfold deletePPTx
  split
  · split
    · exact hinv
    · exact revItems_balInv (allocsOf s.allocations pp.id) s.sellItems hinv
  · exact revItems_balInv (allocsOf s.allocations pp.id) s.sellItems hinv

theorem deletePartyPayment_balInv (s : Store) (u : User) (ppId : Nat) (hinv : balInv s) :
    balInv (deletePartyPayment s u ppId).1 := by
  unfold deletePartyPayment
  split
  · split
    · exact hinv
    · rename_i pp heq
      split
      · exact hinv
      · exact deletePPTx_balInv s u pp hinv
  · exact hinv

/-- C2: the balance invariant `balanceLeft == totalAmount -
paymentReceived` is preserved by each of the four core payment
operations: if it holds before the call, it holds for every SellItem
after the call completes (also when the call errors). -/
theorem balance_invariant_preserved (s : Store) (u : User) (sid? pid? : Option Nat)
    (amt? : Option ℚ) (d? : Option Int) (payId ppId : Nat) (hwf : s.WF) (hinv : balInv s) :
    balInv (recordPayment s u sid? amt? d?).1 ∧
    balInv (deletePayment s u payId).1 ∧
    balInv (createPartyPayment s u pid? amt? d?).1 ∧
    balInv (deletePartyPayment s u ppId).1 :=
  ⟨recordPayment_balInv s u sid? amt? d? hwf.2.1 hinv,
   deletePayment_balInv s u payId hwf.2.1 hinv,
   createPartyPayment_balInv s u pid? amt? d? hwf.2.1 hinv,
   deletePartyPayment_balInv s u ppId hinv⟩

/-- Witness for C2 at a concrete input. -/
theorem balance_invariant_preserved_witness :
    balInv (recordPayment s0 u0 (some 1) (some 30) (some 40)).1 ∧
    balInv (deletePayment s0 admin0 7).1 ∧
    balInv (createPartyPayment s0 u0 (some 1) (some 30) (some 40)).1 ∧
    balInv (deletePartyPayment s0 admin0 7).1 := by
  have h := balance_invariant_preserved s0 u0 (some 1) (some 1) (some 30) (some 40) 7 7
    (by decide) (by norm_num [balInv, s0])
  exact ⟨h.1, h.2.1, h.2.2.1, h.2.2.2⟩

/-! ### C5 -/

/-- When the remaining amount covers the total of the (positive) balances
of the walked items, the FIFO loop exhausts every item and leaves exactly
the difference. -/
theorem fifoLoop_rem_full (ppId : Nat) (L : List SellItem) :
    ∀ (rem : ℚ) (items : List SellItem),
      (∀ x ∈ L, 0 < x.balanceLeft) →
      (L.map SellItem.balanceLeft).sum ≤ rem →
      (fifoLoop ppId rem L items).2.2 = rem - (L.map SellItem.balanceLeft).sum := by
  induction L with
  | nil =>
    intro rem items _ _
    show rem = rem - ([] : List ℚ).sum
    simp
  | cons si rest ih =>
    intro rem items hpos hle
    have hrest_nonneg : 0 ≤ (rest.map SellItem.balanceLeft).sum := by
      apply List.sum_nonneg
      intro x hx
      obtain ⟨y, hy, hyx⟩ := List.mem_map.mp hx
      rw [← hyx]
      exact le_of_lt (hpos y (List.mem_cons_of_mem si hy))
    have hsi : 0 < si.balanceLeft := hpos si (List.mem_cons_self si rest)
    rw [List.map_cons, List.sum_cons] at hle
    have hble : si.balanceLeft ≤ rem :=
      le_trans (le_add_of_nonneg_right hrest_nonneg) hle
    have hrem_pos : 0 < rem := lt_of_lt_of_le hsi hble
    unfold fifoLoop
    rw [if_neg (not_le.mpr hrem_pos)]
    dsimp only
    rw [min_eq_right hble]
    rw [ih (rem - si.balanceLeft) _ (fun x hx => hpos x (List.mem_cons_of_mem si hx))
      (by linarith)]
    rw [List.map_cons, List.sum_cons]
    ring

theorem setCreditFun_id (pid : Nat) (c : ℚ) (p : Party) : (setCreditFun pid c p).id = p.id := by
  unfold setCreditFun
  split <;> rfl

theorem decCreditFun_id (pid : Nat) (a : ℚ) (p : Party) : (decCreditFun pid a p).id = p.id := by
  unfold decCreditFun
  split <;> rfl

theorem find?_parties_map {f : Party → Party} (hf : ∀ p, (f p).id = p.id)
    (l : List Party) (k : Nat) :
    (l.map f).find? (fun p => p.id == k) = (l.find? (fun p => p.id == k)).map f := by
  induction l with
  | nil => rfl
  | cons x xs ih =>
    rw [List.map_cons, List.find?_cons, List.find?_cons]
    have hfx : ((f x).id == k) = (x.id == k) := by rw [hf]
    cases hx : (x.id == k) with
    | true =>
      rw [hfx, hx]
      rfl
    | false =>
      rw [hfx, hx]
      exact ih

/-- The credit balance the store records for a party id (0 if absent). -/
def creditOf (s : Store) (pid : Nat) : ℚ :=
  match s.parties.find? (fun p => p.id == pid) with
  | some p => p.creditBalance
  | none => 0

/-- Positivity of the outstanding total. -/
theorem outstanding_nonneg (s : Store) (pid : Nat) : 0 ≤ outstanding s pid := by
  apply List.sum_nonneg
  intro x hx
  obtain ⟨y, hy, hyx⟩ := List.mem_map.mp hx
  rw [← hyx]
  have h := List.of_mem_filter hy
  unfold isEligible at h
  exact le_of_lt (of_decide_eq_true ((Bool.and_eq_true _ _).mp h).2)

/-- C5: when a party payment exceeds the party's total outstanding
balance, createPartyPayment allocates the full outstanding amount across
the items and adds the remainder to the party's creditBalance:
creditAdded equals the excess and the stored creditBalance increases by
exactly that excess. -/
theorem overpayment_banked (s : Store) (u : User) (pid : Nat) (amt : ℚ) (d : Int)
    (s' : Store) (res : CreateResult) (hwf : s.WF)
    (hover : outstanding s pid < amt)
    (h : createPartyPayment s u (some pid) (some amt) (some d) = (s', Except.ok res)) :
    res.creditAdded = amt - outstanding s pid ∧
    allocSum s'.allocations res.ppId = outstanding s pid ∧
    creditOf s' pid = creditOf s pid + (amt - outstanding s pid) := by
  have hpos : 0 < amt := lt_of_le_of_lt (outstanding_nonneg s pid) hover
  unfold createPartyPayment at h
  dsimp only at h
  rw [if_neg (by simp only [beq_iff_eq]; exact ne_of_gt hpos)] at h
  cases hfind : s.parties.find? (fun p => p.id == pid) with
  | none =>
    rw [hfind] at h
    simp at h
  | some party =>
    rw [hfind] at h
    dsimp only at h
    rw [createPPTx_eq] at h
    rw [Prod.mk.injEq] at h
    obtain ⟨hs', hres⟩ := h
    have hres2 := Except.ok.inj hres
    subst hs'
    subst hres2
    have hsum : ((eligibleItems s.transactions s.sellItems pid).map SellItem.balanceLeft).sum =
        outstanding s pid := eligibleItems_sum s.transactions s.sellItems pid
    have hF2 : (fifoLoop s.nextId amt
        (eligibleItems s.transactions s.sellItems pid) s.sellItems).2.2 =
        amt - outstanding s pid := by
      rw [fifoLoop_rem_full s.nextId _ amt s.sellItems
        (eligibleItems_pos s.transactions s.sellItems pid) (by rw [hsum]; exact le_of_lt hover),
        hsum]
    have hr : 0 < (fifoLoop s.nextId amt
        (eligibleItems s.transactions s.sellItems pid) s.sellItems).2.2 := by
      rw [hF2]
      exact sub_pos.mpr hover
    refine ⟨?_, ?_, ?_⟩
    · dsimp only
      rw [if_pos hr, hF2]
    · dsimp only
      unfold allocSum
      rw [allocsOf_append, allocsOf_eq_nil_of_lt hwf.2.2.2.2.1,
        allocsOf_eq_self (fifoLoop_ppId s.nextId _ amt s.sellItems), List.nil_append]
      have hc := fifoLoop_sum s.nextId
        (eligibleItems s.transactions s.sellItems pid) amt s.sellItems
      rw [hF2] at hc
      linarith
    · unfold creditOf
      dsimp only
      rw [if_pos hr]
      unfold setPartyCredit
      rw [find?_parties_map (setCreditFun_id pid _), hfind, hF2]
      show (setCreditFun pid (party.creditBalance + (amt - outstanding s pid)) party).creditBalance
          = party.creditBalance + (amt - outstanding s pid)
      unfold setCreditFun
      rw [if_pos (List.find?_some hfind)]

/-- Witness for C5 at a concrete input: outstanding 150, payment 200. -/
theorem overpayment_banked_witness :
    (⟨10, 2, 50⟩ : CreateResult).creditAdded = 200 - outstanding sOver 1 ∧
    allocSum (createPartyPayment sOver u0 (some 1) (some 200) (some 40)).1.allocations
      (⟨10, 2, 50⟩ : CreateResult).ppId = outstanding sOver 1 ∧
    creditOf (createPartyPayment sOver u0 (some 1) (some 200) (some 40)).1 1 =
      creditOf sOver 1 + (200 - outstanding sOver 1) :=
  overpayment_banked sOver u0 1 200 40
    (createPartyPayment sOver u0 (some 1) (some 200) (some 40)).1 ⟨10, 2, 50⟩
    (by decide)
    (by norm_num [outstanding, isEligible, txDate, sOver])
    (Prod.ext rfl (by
      norm_num [createPartyPayment, createPPTx, fifoLoop, eligibleItems, sortByDate, insertByDate,
        isEligible, txDate, setItemBalances, setFun, setPartyCredit, setCreditFun, sOver, u0]))

/-! ### C4 -/

theorem find?_pps_append_fresh {pps : List PartyPayment} {k : Nat}
    (h : ∀ x ∈ pps, x.id < k) (pp : PartyPayment) (hpp : pp.id = k) :
    (pps ++ [pp]).find? (fun p => p.id == k) = some pp := by
  rw [List.find?_append]
  have h1 : pps.find? (fun p => p.id == k) = none := by
    rw [List.find?_eq_none]
    intro x hx
    simp only [beq_iff_eq]
    exact Nat.ne_of_lt (h x hx)
  rw [h1, Option.none_or]
  rw [List.find?_cons_of_pos _ (by simp [hpp])]

theorem decCredit_setCredit {parties : List Party} {pid : Nat} {party : Party} (r : ℚ)
    (hnd : (parties.map Party.id).Nodup) (hmem : party ∈ parties) (hid : party.id = pid) :
    decPartyCredit (setPartyCredit parties pid (party.creditBalance + r)) pid r = parties := by
  unfold decPartyCredit setPartyCredit
  rw [List.map_map]
  have hpt : ∀ x ∈ parties,
      (decCreditFun pid r ∘ setCreditFun pid (party.creditBalance + r)) x = x := by
    intro x hx
    by_cases hxid : (x.id == pid) = true
    · have hxp : x = party :=
        List.inj_on_of_nodup_map hnd hx hmem (by rw [beq_iff_eq] at hxid; rw [hxid, hid])
      subst hxp
      show decCreditFun pid r (setCreditFun pid (x.creditBalance + r) x) = x
      unfold setCreditFun decCreditFun
      rw [if_pos hxid]
      simp only []
      rw [if_pos hxid]
      have harith : x.creditBalance + r - r = x.creditBalance := by ring
      rw [harith]
    · show decCreditFun pid r (setCreditFun pid (party.creditBalance + r) x) = x
      unfold setCreditFun decCreditFun
      rw [if_neg hxid, if_neg hxid]
  rw [List.map_congr_left hpt, List.map_id']

/-- C4: createPartyPayment immediately followed by deletePartyPayment (as
admin) on the created PartyPayment succeeds and restores every SellItem's
balances and every party's creditBalance to their exact pre-creation
values, while the PartyPayment row remains as a soft-deleted historical
record and the allocation rows are untouched. -/
theorem create_delete_roundtrip (s : Store) (u admin : User) (pid : Nat) (amt : ℚ)
    (d : Int) (s' : Store) (res : CreateResult) (hwf : s.WF)
    (hadmin : admin.role = Role.admin)
    (h : createPartyPayment s u (some pid) (some amt) (some d) = (s', Except.ok res)) :
    (deletePartyPayment s' admin res.ppId).2 = Except.ok () ∧
    (deletePartyPayment s' admin res.ppId).1.sellItems = s.sellItems ∧
    (deletePartyPayment s' admin res.ppId).1.parties = s.parties ∧
    (deletePartyPayment s' admin res.ppId).1.allocations = s'.allocations ∧
    ∃ q ∈ (deletePartyPayment s' admin res.ppId).1.partyPayments,
      q.id = res.ppId ∧ q.isDeleted = true := by
  unfold createPartyPayment at h
  dsimp only at h
  by_cases hz : (amt == 0) = true
  · rw [if_pos hz] at h
    simp at h
  · rw [if_neg hz] at h
    cases hfind : s.parties.find? (fun p => p.id == pid) with
    | none =>
      rw [hfind] at h
      simp at h
    | some party =>
      rw [hfind] at h
      dsimp only at h
      rw [createPPTx_eq] at h
      rw [Prod.mk.injEq] at h
      obtain ⟨hs', hres⟩ := h
      have hres2 := Except.ok.inj hres
      subst hs'
      subst hres2
      dsimp only
      have hrole : (admin.role == Role.admin) = true := by simp [hadmin]
      have hparty_id : party.id = pid := by
        have := List.find?_some hfind
        simpa using this
      have hparty_mem : party ∈ s.parties := List.mem_of_find?_eq_some hfind
      have hA : allocsOf (s.allocations ++
          (fifoLoop s.nextId amt (eligibleItems s.transactions s.sellItems pid) s.sellItems).2.1)
          s.nextId =
          (fifoLoop s.nextId amt (eligibleItems s.transactions s.sellItems pid) s.sellItems).2.1 := by
        rw [allocsOf_append, allocsOf_eq_nil_of_lt hwf.2.2.2.2.1,
          allocsOf_eq_self (fifoLoop_ppId s.nextId _ amt s.sellItems), List.nil_append]
      have hca : amt - sumAmounts
          (fifoLoop s.nextId amt (eligibleItems s.transactions s.sellItems pid) s.sellItems).2.1 =
          (fifoLoop s.nextId amt (eligibleItems s.transactions s.sellItems pid) s.sellItems).2.2 := by
        have := fifoLoop_sum s.nextId
          (eligibleItems s.transactions s.sellItems pid) amt s.sellItems
        linarith
      have hrev : revItems
          (fifoLoop s.nextId amt (eligibleItems s.transactions s.sellItems pid) s.sellItems).2.1
          (fifoLoop s.nextId amt (eligibleItems s.transactions s.sellItems pid) s.sellItems).1 =
          s.sellItems :=
        revItems_fifoLoop s.nextId (eligibleItems s.transactions s.sellItems pid) amt s.sellItems
          (eligibleItems_subset s.transactions s.sellItems pid) hwf.2.1
          (eligibleItems_nodup s.transactions s.sellItems pid hwf.2.1)
      unfold deletePartyPayment
      rw [if_pos hrole]
      dsimp only
      rw [find?_pps_append_fresh hwf.2.2.2.1 ⟨s.nextId, pid, amt, d, u.id, false, none⟩ rfl]
      dsimp only
      rw [if_neg (show ¬(false = true) by simp)]
      unfold deletePPTx
      rw [hA, hca]
      by_cases hr : 0 < (fifoLoop s.nextId amt
          (eligibleItems s.transactions s.sellItems pid) s.sellItems).2.2
      · rw [if_pos hr, if_pos hr]
        unfold setPartyCredit
        rw [find?_parties_map (setCreditFun_id pid _), hfind]
        dsimp only
        refine ⟨rfl, ?_, ?_, rfl, ?_⟩
        · exact hrev
        · show decPartyCredit (List.map (setCreditFun pid (party.creditBalance +
            (fifoLoop s.nextId amt (eligibleItems s.transactions s.sellItems pid) s.sellItems).2.2))
            s.parties) pid
            (fifoLoop s.nextId amt (eligibleItems s.transactions s.sellItems pid) s.sellItems).2.2 =
            s.parties
          exact decCredit_setCredit _ hwf.1 hparty_mem hparty_id
        · refine ⟨⟨s.nextId, pid, amt, d, u.id, true, some admin.id⟩, ?_, rfl, rfl⟩
          show _ ∈ markDeleted (s.partyPayments ++ [⟨s.nextId, pid, amt, d, u.id, false, none⟩])
            s.nextId admin.id
          unfold markDeleted
          have hm : markFun s.nextId admin.id ⟨s.nextId, pid, amt, d, u.id, false, none⟩ =
              ⟨s.nextId, pid, amt, d, u.id, true, some admin.id⟩ := by
            unfold markFun
            rw [if_pos (by simp)]
          rw [← hm]
          exact List.mem_map_of_mem _
            (List.mem_append_right s.partyPayments (List.mem_singleton_self _))
      · rw [if_neg hr, if_neg hr]
        refine ⟨rfl, ?_, rfl, rfl, ?_⟩
        · exact hrev
        · refine ⟨⟨s.nextId, pid, amt, d, u.id, true, some admin.id⟩, ?_, rfl, rfl⟩
          show _ ∈ markDeleted (s.partyPayments ++ [⟨s.nextId, pid, amt, d, u.id, false, none⟩])
            s.nextId admin.id
          unfold markDeleted
          have hm : markFun s.nextId admin.id ⟨s.nextId, pid, amt, d, u.id, false, none⟩ =
              ⟨s.nextId, pid, amt, d, u.id, true, some admin.id⟩ := by
            unfold markFun
            rw [if_pos (by simp)]
          rw [← hm]
          exact List.mem_map_of_mem _
            (List.mem_append_right s.partyPayments (List.mem_singleton_self _))

/-- Witness for C4 at a concrete input. -/
theorem create_delete_roundtrip_witness :
    (deletePartyPayment (createPartyPayment s0 u0 (some 1) (some 120) (some 40)).1 admin0
      (10 : Nat)).2 = Except.ok () ∧
    (deletePartyPayment (createPartyPayment s0 u0 (some 1) (some 120) (some 40)).1 admin0
      (10 : Nat)).1.sellItems = s0.sellItems ∧
    (deletePartyPayment (createPartyPayment s0 u0 (some 1) (some 120) (some 40)).1 admin0
      (10 : Nat)).1.parties = s0.parties ∧
    (deletePartyPayment (createPartyPayment s0 u0 (some 1) (some 120) (some 40)).1 admin0
      (10 : Nat)).1.allocations =
      (createPartyPayment s0 u0 (some 1) (some 120) (some 40)).1.allocations ∧
    ∃ q ∈ (deletePartyPayment (createPartyPayment s0 u0 (some 1) (some 120) (some 40)).1 admin0
      (10 : Nat)).1.partyPayments, q.id = (10 : Nat) ∧ q.isDeleted = true :=
  create_delete_roundtrip s0 u0 admin0 1 120 40
    (createPartyPayment s0 u0 (some 1) (some 120) (some 40)).1 ⟨10, 2, 0⟩
    (by decide) rfl
    (Prod.ext rfl (by
      norm_num [createPartyPayment, createPPTx, fifoLoop, eligibleItems, sortByDate, insertByDate,
        isEligible, txDate, setItemBalances, setFun, setPartyCredit, setCreditFun, s0, u0]))

/-! ### C9: machinery — id preservation and well-formedness of each operation -/

theorem setPartyCredit_map_id (ps : List Party) (pid : Nat) (c : ℚ) :
    (setPartyCredit ps pid c).map Party.id = ps.map Party.id := by
  unfold setPartyCredit
  rw [List.map_map]
  exact List.map_congr_left (fun x _ => setCreditFun_id pid c x)

theorem decPartyCredit_map_id (ps : List Party) (pid : Nat) (a : ℚ) :
    (decPartyCredit ps pid a).map Party.id = ps.map Party.id := by
  unfold decPartyCredit
  rw [List.map_map]
  exact List.map_congr_left (fun x _ => decCreditFun_id pid a x)

theorem markFun_id (k uid : Nat) (pp : PartyPayment) : (markFun k uid pp).id = pp.id := by
  unfold markFun
  split <;> rfl

theorem markFun_partyId (k uid : Nat) (pp : PartyPayment) :
    (markFun k uid pp).partyId = pp.partyId := by
  unfold markFun
  split <;> rfl

theorem markFun_amount (k uid : Nat) (pp : PartyPayment) :
    (markFun k uid pp).amount = pp.amount := by
  unfold markFun
  split <;> rfl

theorem markDeleted_map_id (pps : List PartyPayment) (k uid : Nat) :
    (markDeleted pps k uid).map PartyPayment.id = pps.map PartyPayment.id := by
  unfold markDeleted
  rw [List.map_map]
  exact List.map_congr_left (fun x _ => markFun_id k uid x)

theorem recordPayment_WF (s : Store) (u : User) (sid? : Option Nat) (amt? : Option ℚ)
    (d? : Option Int) (hwf : s.WF) : (recordPayment s u sid? amt? d?).1.WF := by
  obtain ⟨h1, h2, h3, h4, h5, h6⟩ := hwf
  unfold recordPayment
  cases sid? <;> cases amt? <;> cases d? <;> try exact ⟨h1, h2, h3, h4, h5, h6⟩
  rename_i sid amt d
  dsimp only
  split
  · exact ⟨h1, h2, h3, h4, h5, h6⟩
  · cases hfind : s.sellItems.find? (fun si => si.id == sid) with
    | none => exact ⟨h1, h2, h3, h4, h5, h6⟩
    | some si =>
      refine ⟨h1, ?_, h3, ?_, ?_, ?_⟩
      · show ((setItemBalances s.sellItems sid _ _).map SellItem.id).Nodup
        rw [setItemBalances_map_id]
        exact h2
      · intro pp hpp
        exact Nat.lt_succ_of_lt (h4 pp hpp)
      · intro a ha
        exact Nat.lt_succ_of_lt (h5 a ha)
      · intro p hp
        rcases List.mem_append.mp hp with hl | hr
        · exact Nat.lt_succ_of_lt (h6 p hl)
        · rw [List.mem_singleton.mp hr]
          exact Nat.lt_succ_self s.nextId

theorem deletePayment_WF (s : Store) (u : User) (payId : Nat) (hwf : s.WF) :
    (deletePayment s u payId).1.WF := by
  obtain ⟨h1, h2, h3, h4, h5, h6⟩ := hwf
  have hpay : ∀ p ∈ s.payments.filter (fun p => !(p.id == payId)), p.id < s.nextId :=
    fun p hp => h6 p (List.mem_of_mem_filter hp)
  unfold deletePayment
  split
  · cases hfindp : s.payments.find? (fun p => p.id == payId) with
    | none => exact ⟨h1, h2, h3, h4, h5, h6⟩
    | some pay =>
      dsimp only
      cases hfind : s.sellItems.find? (fun si => si.id == pay.sellItemId) with
      | none => exact ⟨h1, h2, h3, h4, h5, hpay⟩
      | some si =>
        refine ⟨h1, ?_, h3, h4, h5, hpay⟩
        show ((setItemBalances s.sellItems pay.sellItemId _ _).map SellItem.id).Nodup
        rw [setItemBalances_map_id]
        exact h2
  · exact ⟨h1, h2, h3, h4, h5, h6⟩

theorem createPartyPayment_WF (s : Store) (u : User) (pid? : Option Nat) (amt? : Option ℚ)
    (d? : Option Int) (hwf : s.WF) : (createPartyPayment s u pid? amt? d?).1.WF := by
  unfold createPartyPayment
  cases pid? <;> cases amt? <;> cases d? <;> try exact hwf
  rename_i pid amt d
  dsimp only
  split
  · exact hwf
  · cases hfind : s.parties.find? (fun p => p.id == pid) with
    | none => exact hwf
    | some party =>
      obtain ⟨h1, h2, h3, h4, h5, h6⟩ := hwf
      show ((createPPTx s u pid amt d party).1).WF
      rw [createPPTx_eq]
      refine ⟨?_, ?_, ?_, ?_, ?_, ?_⟩
      · show ((if _ then setPartyCredit s.parties pid _ else s.parties).map Party.id).Nodup
        split
        · rw [setPartyCredit_map_id]
          exact h1
        · exact h1
      · show (((fifoLoop s.nextId amt _ s.sellItems).1).map SellItem.id).Nodup
        rw [fifoLoop_map_id]
        exact h2
      · show ((s.partyPayments ++ [_]).map PartyPayment.id).Nodup
        rw [List.map_append]
        rw [List.nodup_append]
        refine ⟨h3, List.nodup_singleton _, ?_⟩
        intro x hx
        obtain ⟨pp, hpp, hppid⟩ := List.mem_map.mp hx
        have hlt := h4 pp hpp
        rw [hppid] at hlt
        simp only [List.map_cons, List.map_nil, List.mem_singleton]
        exact Nat.ne_of_lt hlt
      · intro pp hpp
        rcases List.mem_append.mp hpp with hl | hr
        · exact Nat.lt_succ_of_lt (h4 pp hl)
        · rw [List.mem_singleton.mp hr]
          exact Nat.lt_succ_self s.nextId
      · intro a ha
        rcases List.mem_append.mp ha with hl | hr
        · exact Nat.lt_succ_of_lt (h5 a hl)
        · rw [fifoLoop_ppId s.nextId _ amt s.sellItems a hr]
          exact Nat.lt_succ_self s.nextId
      · intro p hp
        exact Nat.lt_succ_of_lt (h6 p hp)

theorem deletePPTx_WF (s : Store) (u : User) (pp : PartyPayment) (hwf : s.WF) :
    (deletePPTx s u pp).1.WF := by
  obtain ⟨h1, h2, h3, h4, h5, h6⟩ := hwf
  have hpps : ((markDeleted s.partyPayments pp.id u.id).map PartyPayment.id).Nodup := by
    rw [markDeleted_map_id]
    exact h3
  have hpps2 : ∀ q ∈ markDeleted s.partyPayments pp.id u.id, q.id < s.nextId := by
    intro q hq
    obtain ⟨x, hx, hxq⟩ := List.mem_map.mp hq
    rw [← hxq, markFun_id]
    exact h4 x hx
  have hitems : ((revItems (allocsOf s.allocations pp.id) s.sellItems).map SellItem.id).Nodup := by
    rw [revItems_map_id]
    exact h2
  unfold deletePPTx
  split
  · split
    · exact ⟨h1, h2, h3, h4, h5, h6⟩
    · refine ⟨?_, hitems, hpps, hpps2, h5, h6⟩
      show ((decPartyCredit s.parties pp.partyId _).map Party.id).Nodup
      rw [decPartyCredit_map_id]
      exact h1
  · exact ⟨h1, hitems, hpps, hpps2, h5, h6⟩

theorem deletePartyPayment_WF (s : Store) (u : User) (ppId : Nat) (hwf : s.WF) :
    (deletePartyPayment s u ppId).1.WF := by
  unfold deletePartyPayment
  split
  · split
    · exact hwf
    · rename_i pp heq
      split
      · exact hwf
      · exact deletePPTx_WF s u pp hwf
  · exact hwf

theorem applyOp_WF (s : Store) (op : Op) (hwf : s.WF) : (applyOp s op).WF := by
  cases op with
  | pay u sid amt d => exact recordPayment_WF s u sid amt d hwf
  | delPay u k => exact deletePayment_WF s u k hwf
  | partyPay u pid amt d => exact createPartyPayment_WF s u pid amt d hwf
  | delPartyPay u k => exact deletePartyPayment_WF s u k hwf

/-! ### C9: machinery — credit portions -/

theorem creditInv_congr {s s' : Store} (hp : s'.parties = s.parties)
    (hpp : s'.partyPayments = s.partyPayments) (ha : s'.allocations = s.allocations)
    (h : creditInv s) : creditInv s' := by
  unfold creditInv at h ⊢
  rw [hp, hpp, ha]
  exact h

theorem recordPayment_credit_fields (s : Store) (u : User) (sid? : Option Nat)
    (amt? : Option ℚ) (d? : Option Int) :
    (recordPayment s u sid? amt? d?).1.parties = s.parties ∧
    (recordPayment s u sid? amt? d?).1.partyPayments = s.partyPayments ∧
    (recordPayment s u sid? amt? d?).1.allocations = s.allocations := by
  unfold recordPayment
  cases sid? <;> cases amt? <;> cases d? <;> try exact ⟨rfl, rfl, rfl⟩
  dsimp only
  split
  · exact ⟨rfl, rfl, rfl⟩
  · split <;> exact ⟨rfl, rfl, rfl⟩

theorem deletePayment_credit_fields (s : Store) (u : User) (payId : Nat) :
    (deletePayment s u payId).1.parties = s.parties ∧
    (deletePayment s u payId).1.partyPayments = s.partyPayments ∧
    (deletePayment s u payId).1.allocations = s.allocations := by
  unfold deletePayment
  split
  · split
    · exact ⟨rfl, rfl, rfl⟩
    · split <;> exact ⟨rfl, rfl, rfl⟩
  · exact ⟨rfl, rfl, rfl⟩

theorem ite_pos_eq_max (r : ℚ) : (if 0 < r then r else 0) = max 0 r := by
  split
  · exact (max_eq_right (le_of_lt (by assumption))).symm
  · exact (max_eq_left (not_lt.mp (by assumption))).symm

theorem creditPortion_append {A newA : List PaymentAllocation} {pp : PartyPayment} {k : Nat}
    (hk : ∀ a ∈ newA, a.partyPaymentId = k) (hne : pp.id ≠ k) :
    creditPortion (A ++ newA) pp = creditPortion A pp := by
  unfold creditPortion allocSum
  rw [allocsOf_append]
  have hnil : allocsOf newA pp.id = [] := by
    unfold allocsOf
    rw [List.filter_eq_nil_iff]
    intro a ha
    simp only [beq_iff_eq]
    rw [hk a ha]
    exact fun he => hne he.symm
  rw [hnil, List.append_nil]

theorem portionSum_cons (A : List PaymentAllocation) (x : PartyPayment)
    (t : List PartyPayment) (pid : Nat) :
    portionSum A (x :: t) pid =
      (if x.partyId == pid && !x.isDeleted then creditPortion A x else 0) +
        portionSum A t pid := by
  unfold portionSum
  rw [List.map_cons, List.sum_cons]

theorem portionSum_append_pp (A : List PaymentAllocation) (pps : List PartyPayment)
    (pp : PartyPayment) (pid : Nat) :
    portionSum A (pps ++ [pp]) pid =
      portionSum A pps pid +
        (if pp.partyId == pid && !pp.isDeleted then creditPortion A pp else 0) := by
  unfold portionSum
  rw [List.map_append, List.sum_append]
  simp

theorem portionSum_alloc_congr {A B : List PaymentAllocation} (pps : List PartyPayment)
    (pid : Nat) (h : ∀ pp ∈ pps, creditPortion B pp = creditPortion A pp) :
    portionSum B pps pid = portionSum A pps pid := by
  unfold portionSum
  congr 1
  apply List.map_congr_left
  intro pp hpp
  rw [h pp hpp]

theorem markFun_of_ne {k uid : Nat} {pp : PartyPayment} (h : pp.id ≠ k) :
    markFun k uid pp = pp := by
  unfold markFun
  rw [if_neg]
  simp [h]

theorem markFun_self {k uid : Nat} {pp : PartyPayment} (h : (pp.id == k) = true) :
    markFun k uid pp = { pp with isDeleted := true, deletedBy := some uid } := by
  unfold markFun
  rw [if_pos h]

theorem markDeleted_cons (x : PartyPayment) (t : List PartyPayment) (k uid : Nat) :
    markDeleted (x :: t) k uid = markFun k uid x :: markDeleted t k uid := rfl

theorem markDeleted_eq_self {pps : List PartyPayment} {k : Nat} (uid : Nat)
    (h : ∀ x ∈ pps, x.id ≠ k) : markDeleted pps k uid = pps := by
  unfold markDeleted
  have hpt : ∀ x ∈ pps, markFun k uid x = x := fun x hx => markFun_of_ne (h x hx)
  rw [List.map_congr_left hpt, List.map_id']

theorem portionSum_markDeleted (A : List PaymentAllocation) {pps : List PartyPayment}
    {ppId : Nat} (uid : Nat) (pid : Nat) {pp : PartyPayment}
    (hnd : (pps.map PartyPayment.id).Nodup)
    (hfind : pps.find? (fun p => p.id == ppId) = some pp) (hdel : pp.isDeleted = false) :
    portionSum A (markDeleted pps ppId uid) pid =
      portionSum A pps pid - (if pp.partyId == pid then creditPortion A pp else 0) := by
  induction pps with
  | nil => cases hfind
  | cons x t ih =>
    rw [List.map_cons] at hnd
    have hndt := (List.nodup_cons.mp hnd).2
    have hxnotin := (List.nodup_cons.mp hnd).1
    by_cases hx : (x.id == ppId) = true
    · have hxp : x = pp := by
        rw [@List.find?_cons_of_pos PartyPayment (fun p => p.id == ppId) x t hx] at hfind
        exact Option.some.inj hfind
      subst hxp
      have hmt : markDeleted t ppId uid = t := by
        apply markDeleted_eq_self
        intro y hy he
        rw [beq_iff_eq] at hx
        rw [← hx] at he
        exact hxnotin (he ▸ List.mem_map_of_mem PartyPayment.id hy)
      rw [markDeleted_cons, hmt, portionSum_cons, portionSum_cons, markFun_self hx]
      rw [hdel]
      simp only [Bool.not_true, Bool.not_false, Bool.and_true, Bool.and_false]
      rw [if_neg (show ¬(false = true) by simp)]
      ring
    · have hfind2 : t.find? (fun p => p.id == ppId) = some pp := by
        rwa [@List.find?_cons_of_neg PartyPayment (fun p => p.id == ppId) x t hx] at hfind
      rw [markDeleted_cons, portionSum_cons, portionSum_cons,
        markFun_of_ne (by simpa using hx), ih hndt hfind2]
      ring

/-! ### C9: each operation preserves the credit invariant -/

theorem setCreditFun_pos {pid : Nat} {c : ℚ} {p : Party} (h : (p.id == pid) = true) :
    setCreditFun pid c p = { p with creditBalance := c } := by
  unfold setCreditFun
  rw [if_pos h]

theorem setCreditFun_neg {pid : Nat} {c : ℚ} {p : Party} (h : ¬(p.id == pid) = true) :
    setCreditFun pid c p = p := by
  unfold setCreditFun
  rw [if_neg h]

theorem decCreditFun_pos {pid : Nat} {a : ℚ} {p : Party} (h : (p.id == pid) = true) :
    decCreditFun pid a p = { p with creditBalance := p.creditBalance - a } := by
  unfold decCreditFun
  rw [if_pos h]

theorem decCreditFun_neg {pid : Nat} {a : ℚ} {p : Party} (h : ¬(p.id == pid) = true) :
    decCreditFun pid a p = p := by
  unfold decCreditFun
  rw [if_neg h]

theorem createPartyPayment_creditInv (s : Store) (u : User) (pid? : Option Nat)
    (amt? : Option ℚ) (d? : Option Int) (hwf : s.WF) (hinv : creditInv s) :
    creditInv (createPartyPayment s u pid? amt? d?).1 := by
  unfold createPartyPayment
  cases pid? <;> cases amt? <;> cases d? <;> try exact hinv
  rename_i pid amt d
  dsimp only
  split
  · exact hinv
  · cases hfind : s.parties.find? (fun p => p.id == pid) with
    | none => exact hinv
    | some party =>
      obtain ⟨h1, h2, h3, h4, h5, h6⟩ := hwf
      have hpartyid : party.id = pid := by
        have := List.find?_some hfind
        simpa using this
      have hpartymem : party ∈ s.parties := List.mem_of_find?_eq_some hfind
      show creditInv (createPPTx s u pid amt d party).1
      rw [createPPTx_eq]
      have hported : ∀ pp ∈ s.partyPayments,
          creditPortion (s.allocations ++
            (fifoLoop s.nextId amt (eligibleItems s.transactions s.sellItems pid) s.sellItems).2.1) pp =
          creditPortion s.allocations pp := fun pp hpp =>
        creditPortion_append (fifoLoop_ppId s.nextId _ amt s.sellItems)
          (Nat.ne_of_lt (h4 pp hpp))
      have hportnew : creditPortion (s.allocations ++
          (fifoLoop s.nextId amt (eligibleItems s.transactions s.sellItems pid) s.sellItems).2.1)
          ⟨s.nextId, pid, amt, d, u.id, false, none⟩ =
          max 0 (fifoLoop s.nextId amt
            (eligibleItems s.transactions s.sellItems pid) s.sellItems).2.2 := by
        unfold creditPortion allocSum
        dsimp only
        rw [allocsOf_append, allocsOf_eq_nil_of_lt h5,
          allocsOf_eq_self (fifoLoop_ppId s.nextId _ amt s.sellItems), List.nil_append]
        have hc := fifoLoop_sum s.nextId
          (eligibleItems s.transactions s.sellItems pid) amt s.sellItems
        have he : amt - sumAmounts (fifoLoop s.nextId amt
            (eligibleItems s.transactions s.sellItems pid) s.sellItems).2.1 =
            (fifoLoop s.nextId amt
              (eligibleItems s.transactions s.sellItems pid) s.sellItems).2.2 := by
          linarith
        rw [he]
      intro p' hp'
      dsimp only at hp'
      show p'.creditBalance = portionSum
        (s.allocations ++
          (fifoLoop s.nextId amt (eligibleItems s.transactions s.sellItems pid) s.sellItems).2.1)
        (s.partyPayments ++ [⟨s.nextId, pid, amt, d, u.id, false, none⟩]) p'.id
      rw [portionSum_append_pp, portionSum_alloc_congr s.partyPayments p'.id hported]
      dsimp only
      simp only [Bool.not_false, Bool.and_true]
      by_cases hr : 0 < (fifoLoop s.nextId amt
          (eligibleItems s.transactions s.sellItems pid) s.sellItems).2.2
      · rw [if_pos hr] at hp'
        unfold setPartyCredit at hp'
        obtain ⟨q, hq, hqp⟩ := List.mem_map.mp hp'
        subst hqp
        by_cases hqid : (q.id == pid) = true
        · have hqparty : q = party := by
            apply List.inj_on_of_nodup_map h1 hq hpartymem
            rw [beq_iff_eq] at hqid
            rw [hqid, hpartyid]
          subst hqparty
          rw [setCreditFun_pos hqid]
          dsimp only
          have hqid2 : (pid == q.id) = true := by
            rw [beq_iff_eq] at hqid ⊢
            exact hqid.symm
          rw [hqid2, if_pos rfl, hportnew, max_eq_right (le_of_lt hr), hinv q hpartymem]
        · rw [setCreditFun_neg hqid]
          have hqid2 : ¬(pid == q.id) = true := by
            rw [beq_iff_eq] at hqid ⊢
            exact fun he => hqid he.symm
          rw [if_neg (by rw [Bool.not_eq_true] at hqid2 ⊢; exact hqid2)]
          rw [add_zero]
          exact hinv q hq
      · rw [if_neg hr] at hp'
        have hz : (if ((pid == p'.id) = true) then creditPortion
            (s.allocations ++ (fifoLoop s.nextId amt
              (eligibleItems s.transactions s.sellItems pid) s.sellItems).2.1)
            ⟨s.nextId, pid, amt, d, u.id, false, none⟩ else 0) = 0 := by
          split
          · rw [hportnew]
            exact max_eq_left (not_lt.mp hr)
          · rfl
        rw [hz, add_zero]
        exact hinv p' hp'

theorem deletePPTx_creditInv (s : Store) (u : User) (pp : PartyPayment) (hwf : s.WF)
    (hinv : creditInv s)
    (hfind : s.partyPayments.find? (fun p => p.id == pp.id) = some pp)
    (hdel : pp.isDeleted = false) :
    creditInv (deletePPTx s u pp).1 := by
  obtain ⟨h1, h2, h3, h4, h5, h6⟩ := hwf
  unfold deletePPTx
  split
  · rename_i hr
    split
    · exact hinv
    · intro p' hp'
      dsimp only at hp'
      dsimp only
      unfold decPartyCredit at hp'
      obtain ⟨q, hq, hqp⟩ := List.mem_map.mp hp'
      subst hqp
      by_cases hqid : (q.id == pp.partyId) = true
      · rw [decCreditFun_pos hqid]
        dsimp only
        rw [portionSum_markDeleted s.allocations u.id _ h3 hfind hdel]
        have hqid2 : (pp.partyId == q.id) = true := by
          rw [beq_iff_eq] at hqid ⊢
          exact hqid.symm
        rw [hqid2, if_pos rfl]
        have hport : creditPortion s.allocations pp =
            pp.amount - sumAmounts (allocsOf s.allocations pp.id) := by
          unfold creditPortion allocSum
          exact max_eq_right (le_of_lt hr)
        rw [hport, hinv q hq]
      · rw [decCreditFun_neg hqid]
        rw [portionSum_markDeleted s.allocations u.id _ h3 hfind hdel]
        have hqid2 : ¬(pp.partyId == q.id) = true := by
          rw [beq_iff_eq] at hqid ⊢
          exact fun he => hqid he.symm
        rw [if_neg hqid2, sub_zero]
        exact hinv q hq
  · rename_i hr
    intro p' hp'
    dsimp only at hp'
    show p'.creditBalance =
      portionSum s.allocations (markDeleted s.partyPayments pp.id u.id) p'.id
    rw [portionSum_markDeleted s.allocations u.id _ h3 hfind hdel]
    have hz : (if (pp.partyId == p'.id) = true then creditPortion s.allocations pp else 0)
        = 0 := by
      split
      · unfold creditPortion allocSum
        exact max_eq_left (not_lt.mp hr)
      · rfl
    rw [hz, sub_zero]
    exact hinv p' hp'

theorem deletePartyPayment_creditInv (s : Store) (u : User) (ppId : Nat) (hwf : s.WF)
    (hinv : creditInv s) : creditInv (deletePartyPayment s u ppId).1 := by
  unfold deletePartyPayment
  split
  · split
    · exact hinv
    · rename_i pp heq
      split
      · exact hinv
      · rename_i hdel
        have hid : pp.id = ppId := by
          have := List.find?_some heq
          simpa using this
        have heq2 : s.partyPayments.find? (fun p => p.id == pp.id) = some pp := by
          rw [hid]
          exact heq
        exact deletePPTx_creditInv s u pp hwf hinv heq2 (by simpa using hdel)
  · exact hinv

theorem applyOp_creditInv (s : Store) (op : Op) (hwf : s.WF) (hinv : creditInv s) :
    creditInv (applyOp s op) := by
  cases op with
  | pay u sid amt d =>
    obtain ⟨hp, hpp, ha⟩ := recordPayment_credit_fields s u sid amt d
    exact creditInv_congr hp hpp ha hinv
  | delPay u k =>
    obtain ⟨hp, hpp, ha⟩ := deletePayment_credit_fields s u k
    exact creditInv_congr hp hpp ha hinv
  | partyPay u pid amt d => exact createPartyPayment_creditInv s u pid amt d hwf hinv
  | delPartyPay u k => exact deletePartyPayment_creditInv s u k hwf hinv

theorem portionSum_nonneg (A : List PaymentAllocation) (pps : List PartyPayment)
    (pid : Nat) : 0 ≤ portionSum A pps pid := by
  unfold portionSum
  apply List.sum_nonneg
  intro x hx
  obtain ⟨pp, hpp, hppx⟩ := List.mem_map.mp hx
  rw [← hppx]
  split
  · unfold creditPortion
    exact le_max_left 0 _
  · exact le_refl 0

/-- C9: starting from a store with no PartyPayments and zero credit
balances, after any sequence of the four payment operations every
party's creditBalance equals the sum of the credit portions of its
non-deleted PartyPayments (each recomputed from the immutable allocation
rows), and is therefore always nonnegative.  Direct payments never touch
it: only createPartyPayment adds the unallocated residue and
deletePartyPayment subtracts it back. -/
theorem creditBalance_provenance (init : Store) (ops : List Op) (hwf : init.WF)
    (hpps : init.partyPayments = [])
    (hzero : ∀ p ∈ init.parties, p.creditBalance = 0) :
    creditInv (ops.foldl applyOp init) ∧
    ∀ p ∈ (ops.foldl applyOp init).parties, 0 ≤ p.creditBalance := by
  have hinv0 : creditInv init := by
    intro p hp
    rw [hzero p hp, hpps]
    rfl
  have hstep : ∀ (l : List Op) (s : Store), s.WF → creditInv s →
      (l.foldl applyOp s).WF ∧ creditInv (l.foldl applyOp s) := by
    intro l
    induction l with
    | nil => exact fun s hw hi => ⟨hw, hi⟩
    | cons op t ih =>
      intro s hw hi
      exact ih (applyOp s op) (applyOp_WF s op hw) (applyOp_creditInv s op hw hi)
  obtain ⟨hw, hi⟩ := hstep ops init hwf hinv0
  refine ⟨hi, ?_⟩
  intro p hp
  rw [hi p hp]
  exact portionSum_nonneg _ _ _

/-- Witness for C9 at a concrete input: an overpaying party payment, its
reversal, and a direct payment. -/
theorem creditBalance_provenance_witness :
    creditInv ([Op.partyPay u0 (some 1) (some 500) (some 40),
      Op.delPartyPay admin0 10,
      Op.pay u0 (some 1) (some 30) (some 41)].foldl applyOp s0) ∧
    ∀ p ∈ ([Op.partyPay u0 (some 1) (some 500) (some 40),
      Op.delPartyPay admin0 10,
      Op.pay u0 (some 1) (some 30) (some 41)].foldl applyOp s0).parties,
      0 ≤ p.creditBalance :=
  creditBalance_provenance s0
    [Op.partyPay u0 (some 1) (some 500) (some 40),
     Op.delPartyPay admin0 10,
     Op.pay u0 (some 1) (some 30) (some 41)]
    (by decide) rfl (by decide)

/-! ### C10 -/

/-- C10: the party detail endpoint reports each sell item's
payment_received as the sum of that item's direct Payment rows only and
its balance_left as totalAmount minus that sum, ignoring FIFO allocations
and the stored paymentReceived, while the same response's
summary.total_received sums the stored paymentReceived fields — so a sell
item that received only party-payment allocations is reported with
balance_left equal to its totalAmount, differing from its stored
balanceLeft. -/
theorem party_details_ignores_allocations (s : Store) (pid : Nat) (dv : DetailsView)
    (si : SellItem) (h : getPartyDetails s pid = some dv)
    (hsi : si ∈ partySellItems s pid) (hnopay : paymentsSum s.payments si.id = 0) :
    dv.total_received = ((partySellItems s pid).map SellItem.paymentReceived).sum ∧
    sellItemView s si ∈ dv.sell_items ∧
    (sellItemView s si).payment_received = 0 ∧
    (sellItemView s si).balance_left = si.totalAmount ∧
    (si.balanceLeft ≠ si.totalAmount → (sellItemView s si).balance_left ≠ si.balanceLeft) := by
  unfold getPartyDetails at h
  cases hfind : s.parties.find? (fun p => p.id == pid) with
  | none =>
    rw [hfind] at h
    cases h
  | some party =>
    rw [hfind] at h
    have hdv := Option.some.inj h
    subst hdv
    have hbl : (sellItemView s si).balance_left = si.totalAmount := by
      unfold sellItemView
      dsimp only
      rw [hnopay, sub_zero]
    refine ⟨rfl, List.mem_map_of_mem (sellItemView s) hsi, ?_, hbl, ?_⟩
    · unfold sellItemView
      dsimp only
      exact hnopay
    · intro hne
      rw [hbl]
      exact fun he => hne he.symm

/-- Witness for C10: after a party payment of 120 allocated to item 1,
the detail view reports item 1 with payment_received 0 and balance_left
100 although its stored balanceLeft is 0, while summary.total_received
is 120. -/
theorem party_details_ignores_allocations_witness :
    ((getPartyDetails (createPartyPayment s0 u0 (some 1) (some 120) (some 40)).1 1).getD
        ⟨[], 0, 0⟩).total_received =
      (((partySellItems (createPartyPayment s0 u0 (some 1) (some 120) (some 40)).1 1)).map
        SellItem.paymentReceived).sum ∧
    sellItemView (createPartyPayment s0 u0 (some 1) (some 120) (some 40)).1 ⟨1, 1, 100, 100, 0⟩ ∈
      ((getPartyDetails (createPartyPayment s0 u0 (some 1) (some 120) (some 40)).1 1).getD
        ⟨[], 0, 0⟩).sell_items ∧
    (sellItemView (createPartyPayment s0 u0 (some 1) (some 120) (some 40)).1
      ⟨1, 1, 100, 100, 0⟩).payment_received = 0 ∧
    (sellItemView (createPartyPayment s0 u0 (some 1) (some 120) (some 40)).1
      ⟨1, 1, 100, 100, 0⟩).balance_left = (⟨1, 1, 100, 100, 0⟩ : SellItem).totalAmount ∧
    ((⟨1, 1, 100, 100, 0⟩ : SellItem).balanceLeft ≠ (⟨1, 1, 100, 100, 0⟩ : SellItem).totalAmount →
      (sellItemView (createPartyPayment s0 u0 (some 1) (some 120) (some 40)).1
        ⟨1, 1, 100, 100, 0⟩).balance_left ≠ (⟨1, 1, 100, 100, 0⟩ : SellItem).balanceLeft) := by
  have h := party_details_ignores_allocations
    (createPartyPayment s0 u0 (some 1) (some 120) (some 40)).1 1
    ((getPartyDetails (createPartyPayment s0 u0 (some 1) (some 120) (some 40)).1 1).getD
      ⟨[], 0, 0⟩)
    ⟨1, 1, 100, 100, 0⟩
    (by norm_num [getPartyDetails, partySellItems, sellItemView, paymentsSum,
      createPartyPayment, createPPTx, fifoLoop, eligibleItems, sortByDate, insertByDate,
      isEligible, txDate, setItemBalances, setFun, setPartyCredit, setCreditFun, s0, u0])
    (by norm_num [partySellItems, createPartyPayment, createPPTx, fifoLoop, eligibleItems,
      sortByDate, insertByDate, isEligible, txDate, setItemBalances, setFun, setPartyCredit,
      setCreditFun, s0, u0])
    (by norm_num [paymentsSum, createPartyPayment, createPPTx, fifoLoop, eligibleItems,
      sortByDate, insertByDate, isEligible, txDate, setItemBalances, setFun, setPartyCredit,
      setCreditFun, s0, u0])
  exact h

end Ledger
